import Mathlib

/-!
# Light registry (`src/stores/lightStore.js`) and drag-reorder (`src/components/UI.jsx`)

A shallow embedding of the zustand store of the lighting editor and of the
`handleDrop` callback of the light list.

Conventions of the embedding.

* A JavaScript number is a `JSNum`: a finite value, `NaN`, `+Infinity` or
  `-Infinity`.  Finite values are rationals.  Additions and subtractions are
  rounded to the nearest double (`roundDouble`: a significand of 53 bits,
  ties to even); the remainder `%`, `Math.max` and `Math.min` are exact, as
  they are on doubles.  The exponent range is not bounded: no addition of the
  program overflows or underflows on doubles.  The two constant expressions
  `Math.PI * 2` (exact on doubles) and `Math.PI / 3` are taken at their exact
  value, decimal literals at their decimal value, and `Math.PI` is the
  rational value of the double `3.141592653589793`.  The sign of zero is not
  represented.
* An array is the list of its entries.  Arrays with holes appear only in
  `validateArrayWithHoles`; everywhere else an array has an entry at every
  index below its length.
* `uuidv4()` is an input: `addLight` and `duplicateLight` take the generated
  id as their first argument.
* `set` of the store is explicit state passing: every action is a function
  `State → State`.
* Ids, names, types, colours and shapes are strings; `undefined` for an
  optional string is `none`.
-/

namespace LightStore

/-! ## JavaScript numbers and values -/

/-- A JavaScript number. -/
inductive JSNum where
  | fin (q : ℚ)
  | nan
  | posInf
  | negInf
deriving DecidableEq, Repr

/-- A JavaScript value as far as the store inspects it.  `obj` is any object
(a nested array included) that the store never looks into. -/
inductive JSVal where
  | undefined
  | null
  | bool (b : Bool)
  | num (n : JSNum)
  | str (s : String)
  | obj
deriving DecidableEq, Repr

/-- A value received where a 3-vector is expected: either something for which
`Array.isArray` is false, or an array with its entries. -/
inductive JSArr where
  | notArray (v : JSVal)
  | array (xs : List JSVal)
deriving DecidableEq, Repr

/-- The value of `Math.PI`, the double `0x400921FB54442D18`. -/
def MathPI : ℚ := 884279719003555 / 281474976710656

/-- Rounding of a rational towards zero. -/
def truncQ (q : ℚ) : ℤ := if 0 ≤ q then ⌊q⌋ else ⌈q⌉

/-- Rounding of a rational to the nearest integer, a tie going to the even
integer. -/
def roundHalfEven (m : ℚ) : ℤ :=
  if m - (⌊m⌋ : ℚ) < 1 / 2 then ⌊m⌋
  else if 1 / 2 < m - (⌊m⌋ : ℚ) then ⌊m⌋ + 1
  else if ⌊m⌋ % 2 = 0 then ⌊m⌋ else ⌊m⌋ + 1

/-- Rounding of a rational to the nearest double: the nearest number with a
significand of 53 bits, ties to even.  For `2^e ≤ |x| < 2^(e+1)` the doubles
around `x` are the integer multiples of `2^(e-52)`. -/
def roundDouble (x : ℚ) : ℚ :=
  if x = 0 then 0
  else (roundHalfEven (x / (2 : ℚ) ^ (Int.log 2 |x| - 52)) : ℚ) * (2 : ℚ) ^ (Int.log 2 |x| - 52)

/-- JavaScript `a + b` on numbers: the sum of two finite numbers is rounded to
the nearest double. -/
def jsAdd : JSNum → JSNum → JSNum
  | .fin a, .fin b => .fin (roundDouble (a + b))
  | .nan, _ => .nan
  | _, .nan => .nan
  | .posInf, .negInf => .nan
  | .negInf, .posInf => .nan
  | .posInf, _ => .posInf
  | .negInf, _ => .negInf
  | .fin _, .posInf => .posInf
  | .fin _, .negInf => .negInf

/-- JavaScript unary minus on numbers. -/
def jsNeg : JSNum → JSNum
  | .fin a => .fin (-a)
  | .nan => .nan
  | .posInf => .negInf
  | .negInf => .posInf

/-- JavaScript `a - b` on numbers, rounded like the sum. -/
def jsSub (a b : JSNum) : JSNum := jsAdd a (jsNeg b)

/-- Sign of a finite or infinite operand times `+Infinity`; zero gives `NaN`. -/
def infTimes (positive : Bool) (q : ℚ) : JSNum :=
  if q = 0 then .nan
  else if (0 < q) = positive then .posInf else .negInf

/-- JavaScript `a * b` on numbers. -/
def jsMul : JSNum → JSNum → JSNum
  | .fin a, .fin b => .fin (a * b)
  | .nan, _ => .nan
  | _, .nan => .nan
  | .posInf, .fin b => infTimes true b
  | .negInf, .fin b => infTimes false b
  | .fin a, .posInf => infTimes true a
  | .fin a, .negInf => infTimes false a
  | .posInf, .posInf => .posInf
  | .negInf, .negInf => .posInf
  | .posInf, .negInf => .negInf
  | .negInf, .posInf => .negInf

/-- JavaScript `a / b` on numbers. -/
def jsDiv : JSNum → JSNum → JSNum
  | .fin a, .fin b => if b = 0 then infTimes true a else .fin (a / b)
  | .nan, _ => .nan
  | _, .nan => .nan
  | .fin _, .posInf => .fin 0
  | .fin _, .negInf => .fin 0
  | .posInf, .fin b => if 0 ≤ b then .posInf else .negInf
  | .negInf, .fin b => if 0 ≤ b then .negInf else .posInf
  | .posInf, .posInf => .nan
  | .posInf, .negInf => .nan
  | .negInf, .posInf => .nan
  | .negInf, .negInf => .nan

/-- JavaScript `a % b` on numbers: the remainder has the sign of the dividend
(the quotient is rounded towards zero). -/
def jsRem : JSNum → JSNum → JSNum
  | .fin a, .fin b => if b = 0 then .nan else .fin (a - b * (truncQ (a / b) : ℚ))
  | .fin a, .posInf => .fin a
  | .fin a, .negInf => .fin a
  | _, _ => .nan

/-- JavaScript `Math.max(a, b)`. -/
def mathMax : JSNum → JSNum → JSNum
  | .nan, _ => .nan
  | _, .nan => .nan
  | .posInf, _ => .posInf
  | _, .posInf => .posInf
  | .negInf, b => b
  | a, .negInf => a
  | .fin a, .fin b => .fin (max a b)

/-- JavaScript `Math.min(a, b)`. -/
def mathMin : JSNum → JSNum → JSNum
  | .nan, _ => .nan
  | _, .nan => .nan
  | .negInf, _ => .negInf
  | _, .negInf => .negInf
  | .posInf, b => b
  | a, .posInf => a
  | .fin a, .fin b => .fin (min a b)

/-- JavaScript `Number.isFinite(v)`: true for finite numbers only, false for
every value that is not a number. -/
def numberIsFinite : JSVal → Bool
  | .num (.fin _) => true
  | _ => false

/-- JavaScript `typeof v === 'number'`. -/
def isNumber : JSVal → Bool
  | .num _ => true
  | _ => false

/-! ## Data model -/

/-- A ray-visibility object: each of the four keys is present with a boolean
or absent. -/
structure RayVisibility where
  diffuse : Option Bool
  glossy : Option Bool
  transmission : Option Bool
  volumeScatter : Option Bool
deriving DecidableEq, Repr

/-- Object spread `{...a, ...b}` on ray-visibility objects: a key of `b`
overrides the same key of `a`. -/
def RayVisibility.spread (a b : RayVisibility) : RayVisibility where
  diffuse := b.diffuse <|> a.diffuse
  glossy := b.glossy <|> a.glossy
  transmission := b.transmission <|> a.transmission
  volumeScatter := b.volumeScatter <|> a.volumeScatter

/-- The constant `defaultRayVisibility`. -/
def defaultRayVisibility : RayVisibility where
  diffuse := some true
  glossy := some true
  transmission := some true
  volumeScatter := some true

/-- A light record. -/
structure Light where
  id : String
  name : String
  type : String
  position : List JSNum
  rotation : List JSNum
  scale : List JSNum
  power : JSNum
  color : String
  radius : JSNum
  softFalloff : Bool
  shadow : Bool
  shadowBias : JSNum
  shadowRadius : JSNum
  angle : JSNum
  penumbra : JSNum
  rayVisibility : RayVisibility
  shape : Option String
deriving DecidableEq, Repr

/-- The state of the store. -/
structure State where
  lights : List Light
  selectedLight : Option String
deriving DecidableEq, Repr

/-- The initial state of the store. -/
def State.initial : State where
  lights := []
  selectedLight := none

/-- The argument of `updateLightTransform`; an absent key reads as
`undefined`, that is `JSArr.notArray JSVal.undefined`. -/
structure Transform where
  position : JSArr
  rotation : JSArr
  scale : JSArr
deriving DecidableEq, Repr

/-- The argument of `updateLightProperties`; an absent key reads as
`undefined` (`none` for the string and object valued keys). -/
structure Props where
  name : Option String
  power : JSVal
  radius : JSVal
  angle : JSVal
  penumbra : JSVal
  color : Option String
  softFalloff : JSVal
  shadow : JSVal
  shadowBias : JSVal
  shadowRadius : JSVal
  rayVisibility : Option RayVisibility
  shape : Option String
deriving DecidableEq, Repr

/-- Truthiness of an optional string: `undefined` and the empty string are
falsy. -/
def truthyStr : Option String → Bool
  | some s => s != ""
  | none => false

/-! ## The store -/

/-- The function `createDefaultLight`, with the generated id as an input. -/
def createDefaultLight (newId : String) (type : String) : Light where
  id := newId
  name := ""
  type := type
  position := [.fin 0, .fin 5, .fin 0]
  rotation := [.fin 0, .fin 0, .fin 0]
  scale := [.fin 1, .fin 1, .fin 1]
  power := .fin 1000
  color := "#ffffff"
  radius := .fin 5
  softFalloff := true
  shadow := true
  shadowBias := .fin (-1 / 1000)
  shadowRadius := .fin 1
  angle := jsDiv (.fin MathPI) (.fin 3)
  penumbra := .fin (1 / 2)
  rayVisibility := RayVisibility.spread ⟨none, none, none, none⟩ defaultRayVisibility
  shape := if type = "area" then some "rectangle" else none

/-- The function `validateArray`; `minValue = none` is the default `null`. -/
def validateArray (arr : JSArr) (defaultValue : JSNum) (minValue : Option JSNum) : List JSNum :=
  match arr with
  | .notArray _ => [defaultValue, defaultValue, defaultValue]
  | .array xs =>
    if xs.length ≠ 3 then [defaultValue, defaultValue, defaultValue]
    else xs.map fun v =>
      match v with
      | .num (.fin q) =>
        match minValue with
        | some m => mathMax m (.fin q)
        | none => .fin q
      | _ => defaultValue

/-- The function `validateArray` on an array that may have holes: `none` is a
hole, an index below the length at which the array has no entry.
`Array.isArray` is true of such an array and its `length` counts the holes;
`Array.prototype.map` does not call its function at a hole and leaves the hole
in the result. -/
def validateArrayWithHoles (arr : List (Option JSVal)) (defaultValue : JSNum)
    (minValue : Option JSNum) : List (Option JSNum) :=
  if arr.length ≠ 3 then [some defaultValue, some defaultValue, some defaultValue]
  else arr.map fun e =>
    match e with
    | none => none
    | some (.num (.fin q)) =>
      match minValue with
      | some m => some (mathMax m (.fin q))
      | none => some (.fin q)
    | some _ => some defaultValue

/-- The function `normalizeRotation`. -/
def normalizeRotation (rotation : List JSNum) : List JSNum :=
  rotation.map fun v =>
    match v with
    | .fin q => jsSub (jsRem (jsAdd (.fin q) (.fin MathPI)) (jsMul (.fin MathPI) (.fin 2))) (.fin MathPI)
    | _ => .fin 0

/-- The action `addLight`. -/
def addLight (newId : String) (type : String) (state : State) : State :=
  let light := createDefaultLight newId type
  { lights := state.lights ++ [light], selectedLight := some light.id }

/-- The action `removeLight`. -/
def removeLight (id : String) (state : State) : State where
  lights := state.lights.filter fun light => light.id != id
  selectedLight := if state.selectedLight = some id then none else state.selectedLight

/-- The action `selectLight`; the argument `null` is `none`. -/
def selectLight (id : Option String) (state : State) : State :=
  { state with selectedLight := if state.selectedLight = id then none else id }

/-- Array read `xs[i]` of a stored vector.  A read past the end, which gives
`undefined` in JavaScript, is represented by `NaN`; no action of the store
produces a vector whose length is not 3. -/
def index (xs : List JSNum) (i : Nat) : JSNum := xs.getD i .nan

/-- The action `duplicateLight`. -/
def duplicateLight (newId : String) (id : String) (state : State) : State :=
  match state.lights.find? fun light => light.id == id with
  | none => state
  | some lightToDuplicate =>
    let newLight : Light :=
      { lightToDuplicate with
        id := newId
        name := (if lightToDuplicate.name != "" then lightToDuplicate.name
                 else lightToDuplicate.type) ++ " Copy"
        position := [jsAdd (index lightToDuplicate.position 0) (.fin 1),
                     index lightToDuplicate.position 1,
                     index lightToDuplicate.position 2] }
    { lights := state.lights ++ [newLight], selectedLight := some newLight.id }

/-- The object literal that the `map` callback of `updateLightTransform`
returns for the light whose id matches. -/
def applyTransform (transform : Transform) (light : Light) : Light :=
  { light with
    position := validateArray transform.position (.fin 0) none
    rotation := normalizeRotation (validateArray transform.rotation (.fin 0) none)
    scale := validateArray transform.scale (.fin 1) (some (.fin (1 / 10))) }

/-- The action `updateLightTransform`. -/
def updateLightTransform (id : String) (transform : Transform) (state : State) : State :=
  { state with
    lights := state.lights.map fun light =>
      if light.id ≠ id then light else applyTransform transform light }

/-- Statement `if (properties.name !== undefined) newLight.name = properties.name`. -/
def setName (properties : Props) (newLight : Light) : Light :=
  match properties.name with
  | some n => { newLight with name := n }
  | none => newLight

/-- Statement `if (typeof properties.power === 'number')
newLight.power = Math.max(0, properties.power)`. -/
def setPower (properties : Props) (newLight : Light) : Light :=
  match properties.power with
  | .num p => { newLight with power := mathMax (.fin 0) p }
  | _ => newLight

/-- Statement `if (typeof properties.radius === 'number')
newLight.radius = Math.max(0.1, properties.radius)`. -/
def setRadius (properties : Props) (newLight : Light) : Light :=
  match properties.radius with
  | .num r => { newLight with radius := mathMax (.fin (1 / 10)) r }
  | _ => newLight

/-- Statement `if (typeof properties.angle === 'number')
newLight.angle = Math.max(0, Math.min(Math.PI, properties.angle))`. -/
def setAngle (properties : Props) (newLight : Light) : Light :=
  match properties.angle with
  | .num a => { newLight with angle := mathMax (.fin 0) (mathMin (.fin MathPI) a) }
  | _ => newLight

/-- Statement `if (typeof properties.penumbra === 'number')
newLight.penumbra = Math.max(0, Math.min(1, properties.penumbra))`. -/
def setPenumbra (properties : Props) (newLight : Light) : Light :=
  match properties.penumbra with
  | .num q => { newLight with penumbra := mathMax (.fin 0) (mathMin (.fin 1) q) }
  | _ => newLight

/-- Statement `if (properties.color) newLight.color = properties.color`. -/
def setColor (properties : Props) (newLight : Light) : Light :=
  match properties.color with
  | some c => if truthyStr (some c) then { newLight with color := c } else newLight
  | none => newLight

/-- Statement `if (typeof properties.softFalloff === 'boolean')
newLight.softFalloff = properties.softFalloff`. -/
def setSoftFalloff (properties : Props) (newLight : Light) : Light :=
  match properties.softFalloff with
  | .bool b => { newLight with softFalloff := b }
  | _ => newLight

/-- Statement `if (typeof properties.shadow === 'boolean')
newLight.shadow = properties.shadow`. -/
def setShadow (properties : Props) (newLight : Light) : Light :=
  match properties.shadow with
  | .bool b => { newLight with shadow := b }
  | _ => newLight

/-- Statement `if (typeof properties.shadowBias === 'number')
newLight.shadowBias = properties.shadowBias`. -/
def setShadowBias (properties : Props) (newLight : Light) : Light :=
  match properties.shadowBias with
  | .num b => { newLight with shadowBias := b }
  | _ => newLight

/-- Statement `if (typeof properties.shadowRadius === 'number')
newLight.shadowRadius = properties.shadowRadius`. -/
def setShadowRadius (properties : Props) (newLight : Light) : Light :=
  match properties.shadowRadius with
  | .num r => { newLight with shadowRadius := r }
  | _ => newLight

/-- Statement `if (properties.rayVisibility) newLight.rayVisibility =
{ ...defaultRayVisibility, ...properties.rayVisibility }`. -/
def setRayVisibility (properties : Props) (newLight : Light) : Light :=
  match properties.rayVisibility with
  | some rv => { newLight with rayVisibility := RayVisibility.spread defaultRayVisibility rv }
  | none => newLight

/-- Statement `if (properties.shape && light.type === 'area')
newLight.shape = properties.shape`. -/
def setShape (properties : Props) (light newLight : Light) : Light :=
  if truthyStr properties.shape && light.type == "area" then
    { newLight with shape := properties.shape }
  else newLight

/-- The body of the `map` callback of `updateLightProperties` for the light
whose id matches: the copy `newLight` of `light` goes through the twelve
conditional assignments in source order. -/
def applyProperties (properties : Props) (light : Light) : Light :=
  let newLight := light
  let newLight := setName properties newLight
  let newLight := setPower properties newLight
  let newLight := setRadius properties newLight
  let newLight := setAngle properties newLight
  let newLight := setPenumbra properties newLight
  let newLight := setColor properties newLight
  let newLight := setSoftFalloff properties newLight
  let newLight := setShadow properties newLight
  let newLight := setShadowBias properties newLight
  let newLight := setShadowRadius properties newLight
  let newLight := setRayVisibility properties newLight
  let newLight := setShape properties light newLight
  newLight

/-- The action `updateLightProperties`. -/
def updateLightProperties (id : String) (properties : Props) (state : State) : State :=
  { state with
    lights := state.lights.map fun light =>
      if light.id ≠ id then light else applyProperties properties light }

/-! ## Drag-reorder of the light list (`UI.jsx`) -/

/-- JavaScript `xs.findIndex(p)`; the result `-1` is `none`. -/
def findIndex (p : Light → Bool) : List Light → Option Nat
  | [] => none
  | x :: xs => if p x then some 0 else (findIndex p xs).map (· + 1)

/-- JavaScript `xs.splice(start, deleteCount, ...items)` for a start index
and a count that are natural numbers: the array after the call and the array
of removed elements that the call returns. -/
def splice (xs : List Light) (start deleteCount : Nat) (items : List Light) :
    List Light × List Light :=
  (xs.take start ++ items ++ xs.drop (start + deleteCount),
   (xs.drop start).take deleteCount)

/-- The callback `handleDrop` of the light list, as a function of the id
carried by the drag event, the id of the row dropped on, and the state. -/
def handleDrop (sourceId targetId : String) (state : State) : State :=
  if sourceId = targetId then state
  else
    match findIndex (fun l => l.id == sourceId) state.lights,
          findIndex (fun l => l.id == targetId) state.lights with
    | some sourceIndex, some targetIndex =>
      let afterRemoval := splice state.lights sourceIndex 1 []
      let afterInsert := splice afterRemoval.1 targetIndex 0 (afterRemoval.2.take 1)
      { state with lights := afterInsert.1 }
    | _, _ => state

/-! ## Auxiliary definitions for the statements -/

/-- Value that `normalizeRotation` computes for a finite entry `q`:
`((q + Math.PI) % (Math.PI * 2)) - Math.PI`, the sum and the difference being
rounded. -/
def wrap (q : ℚ) : ℚ :=
  roundDouble (roundDouble (q + MathPI)
    - (MathPI * 2) * (truncQ (roundDouble (q + MathPI) / (MathPI * 2)) : ℚ) - MathPI)

/-- An update object without any key. -/
def Props.empty : Props where
  name := none
  power := .undefined
  radius := .undefined
  angle := .undefined
  penumbra := .undefined
  color := none
  softFalloff := .undefined
  shadow := .undefined
  shadowBias := .undefined
  shadowRadius := .undefined
  rayVisibility := none
  shape := none

/-- The ids of the records of a collection, in order. -/
def ids (lights : List Light) : List String := lights.map fun l => l.id

/-- States reached from the empty registry by `addLight`, `removeLight` and
`duplicateLight`, where every generated id is not in the collection at the
time of the call. -/
inductive ReachableByAddRemoveDuplicate : State → Prop where
  | initial : ReachableByAddRemoveDuplicate State.initial
  | addLight {s : State} (newId type : String) :
      ReachableByAddRemoveDuplicate s → newId ∉ ids s.lights →
      ReachableByAddRemoveDuplicate (addLight newId type s)
  | removeLight {s : State} (id : String) :
      ReachableByAddRemoveDuplicate s → ReachableByAddRemoveDuplicate (removeLight id s)
  | duplicateLight {s : State} (newId id : String) :
      ReachableByAddRemoveDuplicate s → newId ∉ ids s.lights →
      ReachableByAddRemoveDuplicate (duplicateLight newId id s)

/-! ## Auxiliary definitions for the invariants -/

/-- JavaScript `a <= b` on numbers: false as soon as one side is `NaN`. -/
def jsLe : JSNum → JSNum → Bool
  | .nan, _ => false
  | _, .nan => false
  | .negInf, _ => true
  | _, .posInf => true
  | .posInf, _ => false
  | _, .negInf => false
  | .fin a, .fin b => decide (a ≤ b)

/-- The numeric and ray-visibility invariants of a record: angle in
`[0, Math.PI]`, penumbra in `[0, 1]`, power at least 0, radius at least 0.1,
and the four ray-visibility keys present. -/
def LightValid (l : Light) : Prop :=
  jsLe (.fin 0) l.angle = true ∧ jsLe l.angle (.fin MathPI) = true ∧
  jsLe (.fin 0) l.penumbra = true ∧ jsLe l.penumbra (.fin 1) = true ∧
  jsLe (.fin 0) l.power = true ∧ jsLe (.fin (1 / 10)) l.radius = true ∧
  l.rayVisibility.diffuse.isSome = true ∧ l.rayVisibility.glossy.isSome = true ∧
  l.rayVisibility.transmission.isSome = true ∧ l.rayVisibility.volumeScatter.isSome = true

/-- Every record of the collection satisfies `LightValid`. -/
def StateValid (s : State) : Prop := ∀ l ∈ s.lights, LightValid l

/-- None of the clamped numeric keys of the update object is `NaN`; this
holds in particular when every number in the object is finite. -/
def ClampedKeysNotNaN (p : Props) : Prop :=
  p.power ≠ .num .nan ∧ p.radius ≠ .num .nan ∧ p.angle ≠ .num .nan ∧ p.penumbra ≠ .num .nan

/-- The shape invariant that the store maintains: a record of type `area` has
a non-empty string as shape, a record of any other type has no shape. -/
def ShapeConsistent (l : Light) : Prop :=
  (l.type = "area" → ∃ sh, l.shape = some sh ∧ sh ≠ "") ∧ (l.type ≠ "area" → l.shape = none)

/-- The selection is none or the id of a record of the collection. -/
def SelectionValid (s : State) : Prop := ∀ a, s.selectedLight = some a → a ∈ ids s.lights

/-- States reached from the empty registry by the seven operations with
arbitrary arguments (the generated ids included). -/
inductive Reachable : State → Prop where
  | initial : Reachable State.initial
  | addLight {s : State} (newId type : String) : Reachable s → Reachable (addLight newId type s)
  | removeLight {s : State} (id : String) : Reachable s → Reachable (removeLight id s)
  | selectLight {s : State} (id : Option String) : Reachable s → Reachable (selectLight id s)
  | duplicateLight {s : State} (newId id : String) :
      Reachable s → Reachable (duplicateLight newId id s)
  | updateLightTransform {s : State} (id : String) (t : Transform) :
      Reachable s → Reachable (updateLightTransform id t s)
  | updateLightProperties {s : State} (id : String) (p : Props) :
      Reachable s → Reachable (updateLightProperties id p s)
  | handleDrop {s : State} (sourceId targetId : String) :
      Reachable s → Reachable (handleDrop sourceId targetId s)

/-- An object passed as `transform` or `properties` that, besides the keys
the actions read (`read`), has the keys `id` and `type`.  Neither action
spreads its argument into the record, so only `read` is ever accessed. -/
structure WithIdAndType (α : Type) where
  read : α
  id : JSVal
  type : JSVal

/-! ## The transform gizmo (`TransformControls3D.jsx`) -/

/-- The rotation orders of three.js.  Each is a string that does not read as a
number, so the global `isFinite` is false on it. -/
inductive EulerOrder where
  | XYZ
  | YXZ
  | ZXY
  | ZYX
  | YZX
  | XZY
deriving DecidableEq, Repr

/-- An entry of the array that `Euler.toArray()` returns: an angle or the
rotation order. -/
inductive EulerEntry where
  | angle (n : JSNum)
  | order (o : EulerOrder)
deriving DecidableEq, Repr

/-- The array `new THREE.Euler().setFromQuaternion(obj.quaternion).toArray()`
for the angles `x`, `y`, `z` of the object.  three.js is not part of the
repository: its `Euler.toArray` returns four entries, the three angles
followed by the rotation order, which is `'XYZ'` for `new THREE.Euler()`. -/
def eulerToArray (x y z : JSNum) : List EulerEntry :=
  [.angle x, .angle y, .angle z, .order .XYZ]

/-- The scale that `updateTransform` of the gizmo computes from the raw
array: `raw.map(v => Math.max(0.1, isFinite(v) ? v : 1))`, for an array of
numbers. -/
def gizmoScale (raw : List JSNum) : List JSNum :=
  raw.map fun v =>
    mathMax (.fin (1 / 10)) (match v with | .fin q => .fin q | _ => .fin 1)

/-- The `normalizedRotation` that `updateTransform` of the gizmo computes
from the raw array: an entry for which `isFinite` is false becomes 0, every
other entry is wrapped. -/
def gizmoRotation (raw : List EulerEntry) : List JSNum :=
  raw.map fun v =>
    match v with
    | .angle (.fin q) =>
      jsSub (jsRem (jsAdd (.fin q) (.fin MathPI)) (jsMul (.fin MathPI) (.fin 2))) (.fin MathPI)
    | _ => .fin 0

/-- A JavaScript array of numbers as an argument value. -/
def numArray (xs : List JSNum) : JSArr := .array (xs.map .num)

/-- The call `updateLightTransform(selectedLight, { position, rotation:
normalizedRotation, scale })` at the end of `updateTransform` of the gizmo,
as a function of the three raw arrays read from the scene object. -/
def gizmoUpdateTransform (selectedLight : String) (position : List JSNum)
    (rotation : List EulerEntry) (scale : List JSNum) (state : State) : State :=
  updateLightTransform selectedLight
    { position := numArray position
      rotation := numArray (gizmoRotation rotation)
      scale := numArray (gizmoScale scale) } state

/-! # Lemmas -/

open JSNum JSVal JSArr

/-! ## Rounding to the nearest double -/

theorem roundHalfEven_intCast (n : ℤ) : roundHalfEven (n : ℚ) = n := by
  simp [roundHalfEven]

theorem floor_le_roundHalfEven (m : ℚ) : ⌊m⌋ ≤ roundHalfEven m := by
  unfold roundHalfEven
  split_ifs <;> omega

theorem roundHalfEven_le_floor_add_one (m : ℚ) : roundHalfEven m ≤ ⌊m⌋ + 1 := by
  unfold roundHalfEven
  split_ifs <;> omega

theorem abs_roundHalfEven_sub_le (m : ℚ) : |(roundHalfEven m : ℚ) - m| ≤ 1 / 2 := by
  have h1 : (⌊m⌋ : ℚ) ≤ m := Int.floor_le m
  have h2 : m < ⌊m⌋ + 1 := Int.lt_floor_add_one m
  unfold roundHalfEven
  rw [abs_le]
  split_ifs with ha hb hc
  · constructor <;> linarith
  · push_cast; constructor <;> linarith
  · constructor <;> linarith
  · push_cast; constructor <;> linarith

theorem roundHalfEven_mono {m m' : ℚ} (h : m ≤ m') : roundHalfEven m ≤ roundHalfEven m' := by
  have hf : ⌊m⌋ ≤ ⌊m'⌋ := Int.floor_le_floor h
  rcases lt_or_eq_of_le hf with hlt | heq
  · calc roundHalfEven m ≤ ⌊m⌋ + 1 := roundHalfEven_le_floor_add_one m
      _ ≤ ⌊m'⌋ := hlt
      _ ≤ roundHalfEven m' := floor_le_roundHalfEven m'
  · unfold roundHalfEven
    rw [← heq]
    split_ifs <;> first | omega | (exfalso; linarith)

/-- An integer that is within less than one half of `m` is what `m` rounds
to. -/
theorem roundHalfEven_eq_of_near {m : ℚ} {n : ℤ} (h : |m - n| < 1 / 2) : roundHalfEven m = n := by
  rw [abs_lt] at h
  have h1 : roundHalfEven ((n : ℚ) - 1 / 2) ≤ roundHalfEven m := roundHalfEven_mono (by linarith)
  have h2 : roundHalfEven m ≤ roundHalfEven ((n : ℚ) + 1 / 2) := roundHalfEven_mono (by linarith)
  have hb := abs_roundHalfEven_sub_le m
  rw [abs_le] at hb
  have h3 : ((roundHalfEven m : ℤ) : ℚ) < n + 1 := by linarith
  have h4 : (n : ℚ) - 1 < roundHalfEven m := by linarith
  have h5 : roundHalfEven m < n + 1 := by exact_mod_cast h3
  have h6 : n - 1 < roundHalfEven m := by exact_mod_cast h4
  omega

theorem two_zpow_pos (k : ℤ) : (0 : ℚ) < (2 : ℚ) ^ k := zpow_pos (by norm_num) k

theorem two_zpow_mono {a b : ℤ} (h : a ≤ b) : (2 : ℚ) ^ a ≤ (2 : ℚ) ^ b :=
  zpow_le_zpow_right₀ (by norm_num) h

theorem log_spec {x : ℚ} (hx : 0 < x) :
    (2 : ℚ) ^ Int.log 2 x ≤ x ∧ x < (2 : ℚ) ^ (Int.log 2 x + 1) := by
  have h1 := Int.zpow_log_le_self (b := 2) (r := x) (by norm_num) hx
  have h2 := Int.lt_zpow_succ_log_self (b := 2) (by norm_num) x
  simp only [Nat.cast_ofNat] at h1 h2
  exact ⟨h1, h2⟩

theorem log_eq_of_bounds {x : ℚ} {e : ℤ} (h1 : (2 : ℚ) ^ e ≤ x) (h2 : x < (2 : ℚ) ^ (e + 1)) :
    Int.log 2 x = e := by
  have hx : 0 < x := lt_of_lt_of_le (two_zpow_pos e) h1
  have ha : e ≤ Int.log 2 x := by
    rw [← Int.zpow_le_iff_le_log (by norm_num) hx]
    simpa using h1
  have hb : Int.log 2 x < e + 1 := by
    rw [← Int.lt_zpow_iff_log_lt (by norm_num) hx]
    simpa using h2
  omega

theorem roundDouble_zero : roundDouble 0 = 0 := by simp [roundDouble]

theorem roundDouble_of_ne {x : ℚ} (hx : x ≠ 0) :
    roundDouble x =
      (roundHalfEven (x / (2 : ℚ) ^ (Int.log 2 |x| - 52)) : ℚ) * (2 : ℚ) ^ (Int.log 2 |x| - 52) := by
  simp [roundDouble, hx]

theorem zpow_sub_52 (e : ℤ) : (2 : ℚ) ^ e = (2 : ℚ) ^ (52 : ℕ) * (2 : ℚ) ^ (e - 52) := by
  rw [← zpow_natCast, ← zpow_add₀ (by norm_num : (2 : ℚ) ≠ 0)]
  congr 1
  omega

theorem zpow_succ_sub_52 (e : ℤ) : (2 : ℚ) ^ (e + 1) = (2 : ℚ) ^ (53 : ℕ) * (2 : ℚ) ^ (e - 52) := by
  rw [← zpow_natCast, ← zpow_add₀ (by norm_num : (2 : ℚ) ≠ 0)]
  congr 1
  omega

/-- For a positive `x` in the binade `[2^e, 2^(e+1))`, the scaled value lies
in `[2^52, 2^53)`. -/
theorem scaled_bounds_pos {x : ℚ} {e : ℤ} (h1 : (2 : ℚ) ^ e ≤ x) (h2 : x < (2 : ℚ) ^ (e + 1)) :
    ((2 ^ 52 : ℤ) : ℚ) ≤ x / (2 : ℚ) ^ (e - 52) ∧ x / (2 : ℚ) ^ (e - 52) < ((2 ^ 53 : ℤ) : ℚ) := by
  have hu := two_zpow_pos (e - 52)
  rw [zpow_sub_52 e] at h1
  rw [zpow_succ_sub_52 e] at h2
  constructor
  · rw [le_div_iff₀ hu]; push_cast; linarith
  · rw [div_lt_iff₀ hu]; push_cast; linarith

theorem roundDouble_pos_bounds {x : ℚ} (hx : 0 < x) :
    (2 : ℚ) ^ Int.log 2 x ≤ roundDouble x ∧ roundDouble x ≤ (2 : ℚ) ^ (Int.log 2 x + 1) := by
  obtain ⟨h1, h2⟩ := log_spec hx
  obtain ⟨h3, h4⟩ := scaled_bounds_pos h1 h2
  have hu := two_zpow_pos (Int.log 2 x - 52)
  rw [roundDouble_of_ne hx.ne', abs_of_pos hx]
  have hn1 : (2 ^ 52 : ℤ) ≤ roundHalfEven (x / (2 : ℚ) ^ (Int.log 2 x - 52)) := by
    have := roundHalfEven_mono h3
    rwa [roundHalfEven_intCast] at this
  have hn2 : roundHalfEven (x / (2 : ℚ) ^ (Int.log 2 x - 52)) ≤ (2 ^ 53 : ℤ) := by
    have := roundHalfEven_mono h4.le
    rwa [roundHalfEven_intCast] at this
  have hn1q : ((2 ^ 52 : ℤ) : ℚ) ≤ (roundHalfEven (x / (2 : ℚ) ^ (Int.log 2 x - 52)) : ℚ) := by
    exact_mod_cast hn1
  have hn2q : (roundHalfEven (x / (2 : ℚ) ^ (Int.log 2 x - 52)) : ℚ) ≤ ((2 ^ 53 : ℤ) : ℚ) := by
    exact_mod_cast hn2
  constructor
  · rw [zpow_sub_52 (Int.log 2 x)]
    push_cast at hn1q
    exact mul_le_mul_of_nonneg_right hn1q hu.le
  · rw [zpow_succ_sub_52 (Int.log 2 x)]
    push_cast at hn2q
    exact mul_le_mul_of_nonneg_right hn2q hu.le

theorem roundHalfEven_neg_le {m : ℚ} {n : ℤ} (h : m ≤ n) : roundHalfEven m ≤ n := by
  have := roundHalfEven_mono h
  rwa [roundHalfEven_intCast] at this

theorem le_roundHalfEven {m : ℚ} {n : ℤ} (h : (n : ℚ) ≤ m) : n ≤ roundHalfEven m := by
  have := roundHalfEven_mono h
  rwa [roundHalfEven_intCast] at this

theorem roundDouble_neg_bounds {x : ℚ} (hx : x < 0) :
    -(2 : ℚ) ^ (Int.log 2 (-x) + 1) ≤ roundDouble x ∧ roundDouble x ≤ -(2 : ℚ) ^ Int.log 2 (-x) := by
  have hx' : 0 < -x := by linarith
  obtain ⟨h1, h2⟩ := log_spec hx'
  obtain ⟨h3, h4⟩ := scaled_bounds_pos h1 h2
  have hu := two_zpow_pos (Int.log 2 (-x) - 52)
  rw [roundDouble_of_ne hx.ne, abs_of_neg hx]
  have e1 : x / (2 : ℚ) ^ (Int.log 2 (-x) - 52) = -(-x / (2 : ℚ) ^ (Int.log 2 (-x) - 52)) := by ring
  have hn1 : roundHalfEven (x / (2 : ℚ) ^ (Int.log 2 (-x) - 52)) ≤ (-(2 ^ 52) : ℤ) := by
    apply roundHalfEven_neg_le
    rw [e1]; push_cast at h3 ⊢; linarith
  have hn2 : (-(2 ^ 53) : ℤ) ≤ roundHalfEven (x / (2 : ℚ) ^ (Int.log 2 (-x) - 52)) := by
    apply le_roundHalfEven
    rw [e1]; push_cast at h4 ⊢; linarith
  have hn1q : (roundHalfEven (x / (2 : ℚ) ^ (Int.log 2 (-x) - 52)) : ℚ) ≤ -(2 : ℚ) ^ (52 : ℕ) := by
    exact_mod_cast hn1
  have hn2q : -(2 : ℚ) ^ (53 : ℕ) ≤ (roundHalfEven (x / (2 : ℚ) ^ (Int.log 2 (-x) - 52)) : ℚ) := by
    exact_mod_cast hn2
  constructor
  · rw [zpow_succ_sub_52 (Int.log 2 (-x))]
    have := mul_le_mul_of_nonneg_right hn2q hu.le
    linarith
  · rw [zpow_sub_52 (Int.log 2 (-x))]
    have := mul_le_mul_of_nonneg_right hn1q hu.le
    linarith

theorem roundDouble_pos {x : ℚ} (hx : 0 < x) : 0 < roundDouble x :=
  lt_of_lt_of_le (two_zpow_pos _) (roundDouble_pos_bounds hx).1

theorem roundDouble_neg {x : ℚ} (hx : x < 0) : roundDouble x < 0 := by
  have := (roundDouble_neg_bounds hx).2
  have := two_zpow_pos (Int.log 2 (-x))
  linarith

/-- Rounding is monotone. -/
theorem roundDouble_mono {x y : ℚ} (h : x ≤ y) : roundDouble x ≤ roundDouble y := by
  rcases lt_trichotomy x 0 with hx | hx | hx
  · rcases lt_trichotomy y 0 with hy | hy | hy
    · -- both negative
      have hlog : Int.log 2 (-y) ≤ Int.log 2 (-x) :=
        Int.log_mono_right (by linarith) (by linarith)
      rcases lt_or_eq_of_le hlog with hlt | heq
      · have h1 := (roundDouble_neg_bounds hx).2
        have h2 := (roundDouble_neg_bounds hy).1
        have h3 : (2 : ℚ) ^ (Int.log 2 (-y) + 1) ≤ (2 : ℚ) ^ Int.log 2 (-x) :=
          two_zpow_mono (by omega)
        linarith
      · rw [roundDouble_of_ne hx.ne, roundDouble_of_ne hy.ne, abs_of_neg hx, abs_of_neg hy, heq]
        have hu := two_zpow_pos (Int.log 2 (-x) - 52)
        apply mul_le_mul_of_nonneg_right _ hu.le
        have : roundHalfEven (x / (2 : ℚ) ^ (Int.log 2 (-x) - 52))
            ≤ roundHalfEven (y / (2 : ℚ) ^ (Int.log 2 (-x) - 52)) :=
          roundHalfEven_mono (div_le_div_of_nonneg_right h hu.le)
        exact_mod_cast this
    · rw [hy, roundDouble_zero]; exact (roundDouble_neg hx).le
    · exact ((roundDouble_neg hx).trans (roundDouble_pos hy)).le
  · rw [hx, roundDouble_zero]
    rcases lt_or_eq_of_le (hx ▸ h) with hy | hy
    · exact (roundDouble_pos hy).le
    · rw [← hy, roundDouble_zero]
  · have hy : 0 < y := lt_of_lt_of_le hx h
    have hlog : Int.log 2 x ≤ Int.log 2 y := Int.log_mono_right hx h
    rcases lt_or_eq_of_le hlog with hlt | heq
    · have h1 := (roundDouble_pos_bounds hx).2
      have h2 := (roundDouble_pos_bounds hy).1
      have h3 : (2 : ℚ) ^ (Int.log 2 x + 1) ≤ (2 : ℚ) ^ Int.log 2 y := two_zpow_mono (by omega)
      linarith
    · rw [roundDouble_of_ne hx.ne', roundDouble_of_ne hy.ne', abs_of_pos hx, abs_of_pos hy, heq]
      have hu := two_zpow_pos (Int.log 2 y - 52)
      apply mul_le_mul_of_nonneg_right _ hu.le
      have : roundHalfEven (x / (2 : ℚ) ^ (Int.log 2 y - 52))
          ≤ roundHalfEven (y / (2 : ℚ) ^ (Int.log 2 y - 52)) :=
        roundHalfEven_mono (div_le_div_of_nonneg_right h hu.le)
      exact_mod_cast this

/-- A number `N * 2^k` with `|N| < 2^53` is a double (the exponent range
aside): rounding leaves it as it is. -/
theorem roundDouble_of_representable (N k : ℤ) (hN : |N| < 2 ^ 53) :
    roundDouble ((N : ℚ) * (2 : ℚ) ^ k) = (N : ℚ) * (2 : ℚ) ^ k := by
  by_cases h0 : N = 0
  · simp [h0, roundDouble_zero]
  · have hk := two_zpow_pos k
    have hx : (N : ℚ) * (2 : ℚ) ^ k ≠ 0 := mul_ne_zero (by exact_mod_cast h0) hk.ne'
    have habs : |(N : ℚ) * (2 : ℚ) ^ k| = (|N| : ℤ) * (2 : ℚ) ^ k := by
      rw [abs_mul, abs_of_pos hk]; push_cast; rfl
    have hpos : 0 < |(N : ℚ) * (2 : ℚ) ^ k| := abs_pos.mpr hx
    obtain ⟨h1, h2⟩ := log_spec hpos
    -- the exponent is at most `k + 52`
    have hlt : |(N : ℚ) * (2 : ℚ) ^ k| < (2 : ℚ) ^ (k + 53) := by
      rw [habs]
      have : ((|N| : ℤ) : ℚ) < (2 : ℚ) ^ (53 : ℕ) := by exact_mod_cast hN
      have e : (2 : ℚ) ^ (k + 53) = (2 : ℚ) ^ (53 : ℕ) * (2 : ℚ) ^ k := by
        rw [← zpow_natCast, ← zpow_add₀ (by norm_num : (2 : ℚ) ≠ 0)]; congr 1; omega
      rw [e]
      exact mul_lt_mul_of_pos_right this hk
    have he : Int.log 2 |(N : ℚ) * (2 : ℚ) ^ k| < k + 53 := by
      by_contra hcon
      push_neg at hcon
      have := two_zpow_mono (a := k + 53) (b := Int.log 2 |(N : ℚ) * (2 : ℚ) ^ k|) hcon
      linarith
    rw [roundDouble_of_ne hx]
    set e := Int.log 2 |(N : ℚ) * (2 : ℚ) ^ k| with he_def
    obtain ⟨j, hj⟩ : ∃ j : ℕ, (j : ℤ) = k - (e - 52) := ⟨(k - (e - 52)).toNat, by omega⟩
    have hdiv : (N : ℚ) * (2 : ℚ) ^ k / (2 : ℚ) ^ (e - 52) = ((N * 2 ^ j : ℤ) : ℚ) := by
      rw [mul_div_assoc, ← zpow_sub₀ (by norm_num : (2 : ℚ) ≠ 0), ← hj, zpow_natCast]
      push_cast; rfl
    rw [hdiv, roundHalfEven_intCast]
    push_cast
    rw [mul_assoc, ← zpow_natCast, ← zpow_add₀ (by norm_num : (2 : ℚ) ≠ 0), hj]
    congr 2
    omega

/-- The rounding error is at most half a unit in the last place. -/
theorem abs_roundDouble_sub_le {x : ℚ} {E : ℤ} (h : |x| < (2 : ℚ) ^ (E + 1)) :
    |roundDouble x - x| ≤ (2 : ℚ) ^ (E - 53) := by
  by_cases h0 : x = 0
  · simp [h0, roundDouble_zero, (two_zpow_pos (E - 53)).le]
  · have hpos : 0 < |x| := abs_pos.mpr h0
    obtain ⟨h1, -⟩ := log_spec hpos
    have he : Int.log 2 |x| ≤ E := by
      by_contra hcon
      push_neg at hcon
      have := two_zpow_mono (a := E + 1) (b := Int.log 2 |x|) (by omega)
      linarith
    rw [roundDouble_of_ne h0]
    set u := (2 : ℚ) ^ (Int.log 2 |x| - 52) with hu_def
    have hu : 0 < u := two_zpow_pos _
    have hr := abs_roundHalfEven_sub_le (x / u)
    have e1 : (roundHalfEven (x / u) : ℚ) * u - x = ((roundHalfEven (x / u) : ℚ) - x / u) * u := by
      field_simp
    rw [e1, abs_mul, abs_of_pos hu]
    have e2 : (2 : ℚ) ^ (Int.log 2 |x| - 53) = 1 / 2 * u := by
      rw [hu_def]
      have : (2 : ℚ) ^ (Int.log 2 |x| - 52) = (2 : ℚ) ^ (Int.log 2 |x| - 53) * 2 := by
        rw [← zpow_add_one₀ (by norm_num : (2 : ℚ) ≠ 0)]; congr 1; omega
      rw [this]; ring
    calc |(roundHalfEven (x / u) : ℚ) - x / u| * u ≤ 1 / 2 * u :=
          mul_le_mul_of_nonneg_right hr hu.le
      _ = (2 : ℚ) ^ (Int.log 2 |x| - 53) := e2.symm
      _ ≤ (2 : ℚ) ^ (E - 53) := two_zpow_mono (by omega)

/-- What a number rounds to, given its binade and the nearest multiple of the
unit in the last place. -/
theorem roundDouble_eq_of_near {x : ℚ} {e n : ℤ} (h1 : (2 : ℚ) ^ e ≤ |x|)
    (h2 : |x| < (2 : ℚ) ^ (e + 1)) (hn : |x / (2 : ℚ) ^ (e - 52) - n| < 1 / 2) :
    roundDouble x = (n : ℚ) * (2 : ℚ) ^ (e - 52) := by
  have hx : x ≠ 0 := by
    intro h
    rw [h, abs_zero] at h1
    exact absurd h1 (not_le.mpr (two_zpow_pos e))
  rw [roundDouble_of_ne hx, log_eq_of_bounds h1 h2, roundHalfEven_eq_of_near hn]

/-- A rounded value of at least 4 is an integer multiple of `2^-50`. -/
theorem roundDouble_multiple_of_ge_four {x : ℚ} (h : 4 ≤ roundDouble x) :
    ∃ j : ℤ, roundDouble x = (j : ℚ) * (2 : ℚ) ^ (-50 : ℤ) := by
  have hx : 0 < x := by
    by_contra hcon
    push_neg at hcon
    have := roundDouble_mono hcon
    rw [roundDouble_zero] at this
    linarith
  obtain ⟨hlo, hhi⟩ := roundDouble_pos_bounds hx
  by_cases he : 2 ≤ Int.log 2 x
  · obtain ⟨j, hj⟩ : ∃ j : ℕ, (j : ℤ) = Int.log 2 x - 2 := ⟨(Int.log 2 x - 2).toNat, by omega⟩
    refine ⟨roundHalfEven (x / (2 : ℚ) ^ (Int.log 2 |x| - 52)) * 2 ^ j, ?_⟩
    rw [roundDouble_of_ne hx.ne', abs_of_pos hx]
    push_cast
    rw [mul_assoc, ← zpow_natCast, ← zpow_add₀ (by norm_num : (2 : ℚ) ≠ 0), hj]
    congr 2
    omega
  · push_neg at he
    have : (2 : ℚ) ^ (Int.log 2 x + 1) ≤ (2 : ℚ) ^ (2 : ℤ) := two_zpow_mono (by omega)
    have h4 : roundDouble x = 4 := by
      have e4 : (2 : ℚ) ^ (2 : ℤ) = 4 := by norm_num
      linarith
    refine ⟨2 ^ 52, ?_⟩
    rw [h4]
    norm_num

theorem roundDouble_of_div (n : ℤ) (j : ℕ) (h : |n| < 2 ^ 53) :
    roundDouble ((n : ℚ) / 2 ^ j) = (n : ℚ) / 2 ^ j := by
  have := roundDouble_of_representable n (-(j : ℤ)) h
  rwa [zpow_neg, zpow_natCast, ← div_eq_mul_inv] at this

/-- An integer multiple of `2^-j` below `2^53 * 2^-j` in absolute value is a
double. -/
theorem roundDouble_of_multiple {x : ℚ} (j : ℕ) (hm : ∃ n : ℤ, x = (n : ℚ) / 2 ^ j)
    (hb : |x| < 2 ^ 53 / 2 ^ j) : roundDouble x = x := by
  obtain ⟨n, rfl⟩ := hm
  apply roundDouble_of_div
  have hj : (0 : ℚ) < 2 ^ j := by positivity
  rw [abs_div, abs_of_pos hj, div_lt_div_iff_of_pos_right hj] at hb
  have : ((|n| : ℤ) : ℚ) < ((2 ^ 53 : ℤ) : ℚ) := by push_cast; exact hb
  exact_mod_cast this

theorem roundDouble_intCast_small (n : ℤ) (h : |n| < 2 ^ 53) : roundDouble (n : ℚ) = n := by
  have := roundDouble_of_div n 0 h
  simpa using this

/-! ## Arithmetic of the rotation wrap -/

theorem MathPI_pos : 0 < MathPI := by unfold MathPI; norm_num

theorem MathPI_gt_three : 3 < MathPI := by unfold MathPI; norm_num

theorem MathPI_lt_four : MathPI < 4 := by unfold MathPI; norm_num

theorem MathPI_eq : MathPI = ((884279719003555 : ℤ) : ℚ) / 2 ^ 48 := by
  unfold MathPI; norm_num

/-- A sum or difference of integer multiples of `2^-j` and of `Math.PI` is an
integer multiple of `2^-j`, for `j ≥ 48`. -/
theorem multiple_add_pi {x : ℚ} {j : ℕ} (hj : 48 ≤ j) (a b : ℤ)
    (hm : ∃ n : ℤ, x = (n : ℚ) / 2 ^ j) :
    ∃ n : ℤ, x + (a : ℚ) * MathPI * (b : ℚ) = (n : ℚ) / 2 ^ j := by
  obtain ⟨n, rfl⟩ := hm
  obtain ⟨d, rfl⟩ : ∃ d, j = 48 + d := ⟨j - 48, by omega⟩
  refine ⟨n + a * 884279719003555 * b * 2 ^ d, ?_⟩
  rw [MathPI_eq]
  push_cast
  rw [pow_add]
  field_simp
  ring

theorem truncQ_of_nonneg {q : ℚ} (h : 0 ≤ q) : truncQ q = ⌊q⌋ := by
  simp [truncQ, h]

theorem truncQ_of_nonpos {q : ℚ} (h : q ≤ 0) : truncQ q = ⌈q⌉ := by
  unfold truncQ
  split_ifs with h0
  · have : q = 0 := le_antisymm h h0
    simp [this]
  · rfl

/-- The remainder of a non-negative dividend by a positive divisor lies in
`[0, b)`. -/
theorem rem_bounds_of_nonneg {a b : ℚ} (ha : 0 ≤ a) (hb : 0 < b) :
    0 ≤ a - b * (truncQ (a / b) : ℚ) ∧ a - b * (truncQ (a / b) : ℚ) < b := by
  have hq : 0 ≤ a / b := div_nonneg ha hb.le
  rw [truncQ_of_nonneg hq]
  have h1 : (⌊a / b⌋ : ℚ) ≤ a / b := Int.floor_le _
  have h2 : a / b < ⌊a / b⌋ + 1 := Int.lt_floor_add_one _
  have h3 : b * (a / b) = a := by field_simp
  constructor
  · nlinarith
  · nlinarith

/-- The remainder of a non-positive dividend by a positive divisor lies in
`(-b, 0]`: it has the sign of the dividend. -/
theorem rem_bounds_of_nonpos {a b : ℚ} (ha : a ≤ 0) (hb : 0 < b) :
    -b < a - b * (truncQ (a / b) : ℚ) ∧ a - b * (truncQ (a / b) : ℚ) ≤ 0 := by
  have hq : a / b ≤ 0 := div_nonpos_of_nonpos_of_nonneg ha hb.le
  rw [truncQ_of_nonpos hq]
  have h1 : a / b ≤ (⌈a / b⌉ : ℚ) := Int.le_ceil _
  have h2 : (⌈a / b⌉ : ℚ) < a / b + 1 := Int.ceil_lt_add_one _
  have h3 : b * (a / b) = a := by field_simp
  constructor
  · nlinarith
  · nlinarith

theorem rem_eq_self_of_lt {a b : ℚ} (ha : 0 ≤ a) (hab : a < b) :
    a - b * (truncQ (a / b) : ℚ) = a := by
  have hb : 0 < b := lt_of_le_of_lt ha hab
  have hq : 0 ≤ a / b := div_nonneg ha hb.le
  rw [truncQ_of_nonneg hq]
  have : ⌊a / b⌋ = 0 := by
    rw [Int.floor_eq_iff]
    refine ⟨by simpa using hq, ?_⟩
    simp only [Int.cast_zero, zero_add]
    exact (div_lt_one hb).mpr hab
  simp [this]

theorem rem_eq_self_of_neg {a b : ℚ} (ha : a ≤ 0) (hab : -b < a) :
    a - b * (truncQ (a / b) : ℚ) = a := by
  have hb : 0 < b := by linarith
  have hq : a / b ≤ 0 := div_nonpos_of_nonpos_of_nonneg ha hb.le
  rw [truncQ_of_nonpos hq]
  have : ⌈a / b⌉ = 0 := by
    rw [Int.ceil_eq_iff]
    refine ⟨?_, by simpa using hq⟩
    simp only [Int.cast_zero, zero_sub]
    rw [lt_div_iff₀ hb]; linarith
  simp [this]

theorem normalizeRotation_eq (r : List JSNum) :
    normalizeRotation r = r.map fun v => match v with | .fin q => .fin (wrap q) | _ => .fin 0 := by
  unfold normalizeRotation
  congr 1
  funext v
  cases v <;> simp [jsSub, jsRem, jsAdd, jsMul, jsNeg, wrap, MathPI_pos.ne', sub_eq_add_neg]

/-- The quotient `k` of the remainder taken inside the wrap of `q`. -/
theorem wrap_eq (q : ℚ) :
    wrap q = roundDouble (roundDouble (q + MathPI)
      - (truncQ (roundDouble (q + MathPI) / (MathPI * 2)) : ℚ) * (2 * MathPI) - MathPI) := by
  unfold wrap
  congr 1
  ring

theorem roundDouble_neg_pi : roundDouble (-MathPI) = -MathPI := by
  have := roundDouble_of_div (-884279719003555) 48 (by norm_num)
  rw [MathPI_eq]
  push_cast at this ⊢
  rw [neg_div] at this
  exact this

theorem roundDouble_pi_sub_ulp :
    roundDouble (MathPI - 1 / 2 ^ 50) = MathPI - 1 / 2 ^ 50 := by
  have := roundDouble_of_div (3537118876014219) 50 (by norm_num)
  have e : MathPI - 1 / 2 ^ 50 = ((3537118876014219 : ℤ) : ℚ) / 2 ^ 50 := by
    unfold MathPI; norm_num
  rw [e]; exact this

theorem roundDouble_two_pi_sub_ulp :
    roundDouble (MathPI * 2 - 1 / 2 ^ 50) = MathPI * 2 - 1 / 2 ^ 50 := by
  have := roundDouble_of_div (7074237752028439) 50 (by norm_num)
  have e : MathPI * 2 - 1 / 2 ^ 50 = ((7074237752028439 : ℤ) : ℚ) / 2 ^ 50 := by
    unfold MathPI; norm_num
  rw [e]; exact this

/-- For an entry of at least `-Math.PI` the wrapped value lies in
`[-Math.PI, Math.PI)`, rounding included. -/
theorem wrap_bounds {q : ℚ} (h : -MathPI ≤ q) : -MathPI ≤ wrap q ∧ wrap q < MathPI := by
  have hb : 0 < MathPI * 2 := by linarith [MathPI_pos]
  have hs : 0 ≤ q + MathPI := by linarith
  have ha : 0 ≤ roundDouble (q + MathPI) := by
    have := roundDouble_mono hs
    rwa [roundDouble_zero] at this
  obtain ⟨hr0, hr1⟩ := rem_bounds_of_nonneg ha hb
  set a := roundDouble (q + MathPI) with ha_def
  set k := truncQ (a / (MathPI * 2)) with hk_def
  have hk0 : 0 ≤ k := by
    rw [hk_def, truncQ_of_nonneg (div_nonneg ha hb.le)]
    exact Int.floor_nonneg.mpr (div_nonneg ha hb.le)
  have hk0q : (0 : ℚ) ≤ (k : ℚ) := by exact_mod_cast hk0
  -- the remainder is at most `2 * Math.PI - 2^-50`, or below 4
  have hr2 : a - MathPI * 2 * (k : ℚ) ≤ MathPI * 2 - 1 / 2 ^ 50 := by
    by_cases h4 : 4 ≤ a - MathPI * 2 * (k : ℚ)
    · have ha4 : 4 ≤ a := by nlinarith
      obtain ⟨j, hj⟩ := roundDouble_multiple_of_ge_four (x := q + MathPI) ha4
      have hj' : a = (j : ℚ) / 2 ^ 50 := by
        rw [ha_def, hj, zpow_neg, div_eq_mul_inv]; norm_cast
      have hpi : MathPI * 2 = ((7074237752028440 : ℤ) : ℚ) / 2 ^ 50 := by
        unfold MathPI; norm_num
      have hrem : a - MathPI * 2 * (k : ℚ) = ((j - 7074237752028440 * k : ℤ) : ℚ) / 2 ^ 50 := by
        rw [hj', hpi]; push_cast; ring
      rw [hrem, hpi] at hr1
      have hp : (0 : ℚ) < 2 ^ 50 := by positivity
      rw [div_lt_div_iff_of_pos_right hp] at hr1
      have hlt : j - 7074237752028440 * k < 7074237752028440 := by exact_mod_cast hr1
      have hle : j - 7074237752028440 * k ≤ 7074237752028439 := by omega
      have hleq : ((j - 7074237752028440 * k : ℤ) : ℚ) ≤ ((7074237752028439 : ℤ) : ℚ) := by
        exact_mod_cast hle
      rw [hrem, hpi]
      have e : ((7074237752028440 : ℤ) : ℚ) / 2 ^ 50 - 1 / 2 ^ 50
          = ((7074237752028439 : ℤ) : ℚ) / 2 ^ 50 := by push_cast; ring
      rw [e]
      exact div_le_div_of_nonneg_right hleq hp.le
    · push_neg at h4
      have : (4 : ℚ) ≤ MathPI * 2 - 1 / 2 ^ 50 := by unfold MathPI; norm_num
      linarith
  have hd1 : -MathPI ≤ a - MathPI * 2 * (k : ℚ) - MathPI := by linarith
  have hd2 : a - MathPI * 2 * (k : ℚ) - MathPI ≤ MathPI - 1 / 2 ^ 50 := by linarith
  have h1 := roundDouble_mono hd1
  have h2 := roundDouble_mono hd2
  rw [roundDouble_neg_pi] at h1
  rw [roundDouble_pi_sub_ulp] at h2
  have hpos : (0 : ℚ) < 1 / 2 ^ 50 := by positivity
  unfold wrap
  exact ⟨h1, by linarith⟩

/-- An integer multiple of `2^-50` in `[-Math.PI, Math.PI)` is wrapped to
itself: the sum and the difference are exact. -/
theorem wrap_eq_self {q : ℚ} (h : -MathPI ≤ q) (h2 : q < MathPI)
    (hm : ∃ n : ℤ, q = (n : ℚ) / 2 ^ 50) : wrap q = q := by
  have hs : 0 ≤ q + MathPI := by linarith
  have hlt : q + MathPI < MathPI * 2 := by linarith
  have hsm : ∃ n : ℤ, q + MathPI = (n : ℚ) / 2 ^ 50 := by
    have := multiple_add_pi (j := 50) (by norm_num) 1 1 hm
    simpa using this
  have h8 : MathPI * 2 < 2 ^ 53 / 2 ^ 50 := by unfold MathPI; norm_num
  have e1 : roundDouble (q + MathPI) = q + MathPI :=
    roundDouble_of_multiple 50 hsm (by rw [abs_of_nonneg hs]; linarith)
  have e2 : roundDouble q = q :=
    roundDouble_of_multiple 50 hm (by rw [abs_lt]; constructor <;> linarith [MathPI_pos])
  unfold wrap
  rw [e1, rem_eq_self_of_lt hs hlt]
  have : q + MathPI - MathPI = q := by ring
  rw [this, e2]

theorem wrap_zero : wrap 0 = 0 :=
  wrap_eq_self (by linarith [MathPI_pos]) MathPI_pos ⟨0, by simp⟩

theorem wrap_one : wrap 1 = 1 :=
  wrap_eq_self (by linarith [MathPI_pos]) (by linarith [MathPI_gt_three]) ⟨2 ^ 50, by norm_num⟩

theorem wrap_half : wrap (1 / 2) = 1 / 2 :=
  wrap_eq_self (by linarith [MathPI_pos]) (by linarith [MathPI_gt_three]) ⟨2 ^ 49, by norm_num⟩

theorem wrap_pi : wrap MathPI = -MathPI := by
  have e1 : roundDouble (MathPI + MathPI) = MathPI + MathPI := by
    have := roundDouble_of_div (1768559438007110) 48 (by norm_num)
    have e : MathPI + MathPI = ((1768559438007110 : ℤ) : ℚ) / 2 ^ 48 := by
      unfold MathPI; norm_num
    rw [e]; exact this
  have e2 : (MathPI + MathPI) / (MathPI * 2) = 1 := by
    have := MathPI_pos.ne'
    field_simp; ring
  unfold wrap
  rw [e1, e2]
  have : MathPI + MathPI - MathPI * 2 * ((truncQ 1 : ℤ) : ℚ) - MathPI = -MathPI := by
    simp [truncQ]; ring
  rw [this, roundDouble_neg_pi]

/-- An integer multiple of `2^-48` in `(-3 * Math.PI, -Math.PI)` is left as
it is: the remainder of a negative dividend is negative. -/
theorem wrap_eq_self_of_lt {q : ℚ} (h : -(3 * MathPI) < q) (h2 : q < -MathPI)
    (hm : ∃ n : ℤ, q = (n : ℚ) / 2 ^ 48) : wrap q = q := by
  have ha : q + MathPI ≤ 0 := by linarith
  have hab : -(MathPI * 2) < q + MathPI := by linarith
  have hsm : ∃ n : ℤ, q + MathPI = (n : ℚ) / 2 ^ 48 := by
    have := multiple_add_pi (j := 48) (by norm_num) 1 1 hm
    simpa using this
  have h32 : 3 * MathPI < 2 ^ 53 / 2 ^ 48 := by unfold MathPI; norm_num
  have e1 : roundDouble (q + MathPI) = q + MathPI :=
    roundDouble_of_multiple 48 hsm (by rw [abs_lt]; constructor <;> linarith [MathPI_pos])
  have e2 : roundDouble q = q :=
    roundDouble_of_multiple 48 hm (by rw [abs_lt]; constructor <;> linarith [MathPI_pos])
  unfold wrap
  rw [e1, rem_eq_self_of_neg ha hab]
  have : q + MathPI - MathPI = q := by ring
  rw [this, e2]

theorem wrap_neg_four : wrap (-4) = -4 :=
  wrap_eq_self_of_lt (by linarith [MathPI_gt_three]) (by linarith [MathPI_lt_four])
    ⟨-(4 * 2 ^ 48), by norm_num⟩

/-- In `[-Math.PI, Math.PI - 2^-50]` the wrap changes an entry by at most the
two rounding errors. -/
theorem wrap_near {q : ℚ} (h1 : -MathPI ≤ q) (h2 : q ≤ MathPI - 1 / 2 ^ 50) :
    |wrap q - q| ≤ 1 / 2 ^ 50 := by
  have hpos : (0 : ℚ) < 1 / 2 ^ 50 := by positivity
  have hs0 : 0 ≤ q + MathPI := by linarith
  have hs1 : q + MathPI ≤ MathPI * 2 - 1 / 2 ^ 50 := by linarith
  have ha0 : 0 ≤ roundDouble (q + MathPI) := by
    have := roundDouble_mono hs0
    rwa [roundDouble_zero] at this
  have ha1 : roundDouble (q + MathPI) ≤ MathPI * 2 - 1 / 2 ^ 50 := by
    have := roundDouble_mono hs1
    rwa [roundDouble_two_pi_sub_ulp] at this
  have herr1 : |roundDouble (q + MathPI) - (q + MathPI)| ≤ (2 : ℚ) ^ ((2 : ℤ) - 53) := by
    apply abs_roundDouble_sub_le
    rw [abs_of_nonneg hs0]
    have : (2 : ℚ) ^ ((2 : ℤ) + 1) = 8 := by norm_num
    rw [this]; linarith [MathPI_lt_four]
  unfold wrap
  rw [rem_eq_self_of_lt ha0 (by linarith)]
  set a := roundDouble (q + MathPI) with ha_def
  have herr2 : |roundDouble (a - MathPI) - (a - MathPI)| ≤ (2 : ℚ) ^ ((1 : ℤ) - 53) := by
    apply abs_roundDouble_sub_le
    have : (2 : ℚ) ^ ((1 : ℤ) + 1) = 4 := by norm_num
    rw [this, abs_lt]
    constructor <;> linarith [MathPI_lt_four, MathPI_pos]
  have e1 : (2 : ℚ) ^ ((2 : ℤ) - 53) = 1 / 2 ^ 51 := by
    rw [show ((2 : ℤ) - 53) = -(51 : ℕ) by norm_num, zpow_neg, zpow_natCast]; simp
  have e2 : (2 : ℚ) ^ ((1 : ℤ) - 53) = 1 / 2 ^ 52 := by
    rw [show ((1 : ℤ) - 53) = -(52 : ℕ) by norm_num, zpow_neg, zpow_natCast]; simp
  rw [e1] at herr1
  rw [e2] at herr2
  have e3 : roundDouble (a - MathPI) - q
      = (roundDouble (a - MathPI) - (a - MathPI)) + (a - (q + MathPI)) := by ring
  rw [e3]
  calc |roundDouble (a - MathPI) - (a - MathPI) + (a - (q + MathPI))|
      ≤ |roundDouble (a - MathPI) - (a - MathPI)| + |a - (q + MathPI)| := abs_add _ _
    _ ≤ 1 / 2 ^ 52 + 1 / 2 ^ 51 := add_le_add herr2 herr1
    _ ≤ 1 / 2 ^ 50 := by norm_num

/-- The remainder taken inside the wrap lies strictly between `-2 * Math.PI`
and `2 * Math.PI`. -/
theorem rem_abs_lt (a : ℚ) :
    |a - MathPI * 2 * (truncQ (a / (MathPI * 2)) : ℚ)| < MathPI * 2 := by
  have hb : 0 < MathPI * 2 := by linarith [MathPI_pos]
  rw [abs_lt]
  rcases le_total 0 a with ha | ha
  · obtain ⟨h1, h2⟩ := rem_bounds_of_nonneg ha hb
    constructor <;> linarith
  · obtain ⟨h1, h2⟩ := rem_bounds_of_nonpos ha hb
    constructor <;> linarith

/-- The wrapped value is the entry minus an integer multiple of
`2 * Math.PI`, up to the two rounding errors. -/
theorem wrap_sub_multiple_near (q : ℚ) (E : ℤ) (h : |q + MathPI| < (2 : ℚ) ^ (E + 1)) :
    |wrap q - (q - (truncQ (roundDouble (q + MathPI) / (MathPI * 2)) : ℚ) * (2 * MathPI))|
      ≤ (2 : ℚ) ^ (E - 53) + 1 / 2 ^ 50 := by
  have herr1 := abs_roundDouble_sub_le h
  unfold wrap
  set a := roundDouble (q + MathPI) with ha_def
  set k := (truncQ (a / (MathPI * 2)) : ℚ) with hk_def
  have hr := rem_abs_lt a
  rw [← hk_def] at hr
  rw [abs_lt] at hr
  have herr2 : |roundDouble (a - MathPI * 2 * k - MathPI) - (a - MathPI * 2 * k - MathPI)|
      ≤ (2 : ℚ) ^ ((3 : ℤ) - 53) := by
    apply abs_roundDouble_sub_le
    have : (2 : ℚ) ^ ((3 : ℤ) + 1) = 16 := by norm_num
    rw [this, abs_lt]
    constructor <;> linarith [MathPI_lt_four, MathPI_pos, hr.1, hr.2]
  have e2 : (2 : ℚ) ^ ((3 : ℤ) - 53) = 1 / 2 ^ 50 := by
    rw [show ((3 : ℤ) - 53) = -(50 : ℕ) by norm_num, zpow_neg, zpow_natCast]; simp
  rw [e2] at herr2
  have e3 : roundDouble (a - MathPI * 2 * k - MathPI) - (q - k * (2 * MathPI))
      = (a - (q + MathPI))
        + (roundDouble (a - MathPI * 2 * k - MathPI) - (a - MathPI * 2 * k - MathPI)) := by
    ring
  rw [e3]
  exact (abs_add _ _).trans (add_le_add herr1 herr2)

/-- For an integer multiple of `2^-48` of absolute value at most 16 the sum
and the difference are exact: the wrapped value is the entry minus an integer
multiple of `2 * Math.PI`. -/
theorem wrap_exact_of_multiple {q : ℚ} (hm : ∃ n : ℤ, q = (n : ℚ) / 2 ^ 48) (hb : |q| ≤ 16) :
    wrap q = q - (truncQ (roundDouble (q + MathPI) / (MathPI * 2)) : ℚ) * (2 * MathPI) := by
  rw [abs_le] at hb
  have h32 : (2 : ℚ) ^ 53 / 2 ^ 48 = 32 := by norm_num
  have hsm : ∃ n : ℤ, q + MathPI = (n : ℚ) / 2 ^ 48 := by
    have := multiple_add_pi (j := 48) (by norm_num) 1 1 hm
    simpa using this
  have e1 : roundDouble (q + MathPI) = q + MathPI :=
    roundDouble_of_multiple 48 hsm (by
      rw [h32, abs_lt]; constructor <;> linarith [MathPI_lt_four, MathPI_pos])
  unfold wrap
  rw [e1]
  set k := truncQ ((q + MathPI) / (MathPI * 2)) with hk_def
  have hr := rem_abs_lt (q + MathPI)
  rw [← hk_def, abs_lt] at hr
  have hdm : ∃ n : ℤ, q + MathPI - MathPI * 2 * (k : ℚ) - MathPI = (n : ℚ) / 2 ^ 48 := by
    have h1 := multiple_add_pi (j := 48) (by norm_num) (-2) k hm
    obtain ⟨n, hn⟩ := h1
    exact ⟨n, by rw [← hn]; push_cast; ring⟩
  have e2 : roundDouble (q + MathPI - MathPI * 2 * (k : ℚ) - MathPI)
      = q + MathPI - MathPI * 2 * (k : ℚ) - MathPI :=
    roundDouble_of_multiple 48 hdm (by
      rw [h32, abs_lt]; constructor <;> linarith [MathPI_lt_four, MathPI_pos, hr.1, hr.2])
  rw [e2]; ring

/-- The double `0.1` is stored as the double `0.10000000000000009`: the sum
`0.1 + Math.PI` is rounded. -/
theorem wrap_tenth :
    wrap (3602879701896397 / 2 ^ 55) = 225179981368525 / 2 ^ 51 := by
  have e1 : roundDouble (3602879701896397 / 2 ^ 55 + MathPI)
      = ((7299417733396965 : ℤ) : ℚ) * (2 : ℚ) ^ ((1 : ℤ) - 52) := by
    apply roundDouble_eq_of_near
    · unfold MathPI; norm_num [abs_of_pos]
    · unfold MathPI; norm_num [abs_of_pos]
    · unfold MathPI
      rw [show ((1 : ℤ) - 52) = -(51 : ℕ) by norm_num, zpow_neg, zpow_natCast]
      norm_num [abs_lt]
  have e0 : ((7299417733396965 : ℤ) : ℚ) * (2 : ℚ) ^ ((1 : ℤ) - 52)
      = 7299417733396965 / 2 ^ 51 := by
    rw [show ((1 : ℤ) - 52) = -(51 : ℕ) by norm_num, zpow_neg, zpow_natCast]; norm_num
  rw [e0] at e1
  unfold wrap
  rw [e1, rem_eq_self_of_lt (by norm_num) (by unfold MathPI; norm_num)]
  have e2 : (7299417733396965 : ℚ) / 2 ^ 51 - MathPI = ((225179981368525 : ℤ) : ℚ) / 2 ^ 51 := by
    unfold MathPI; norm_num
  rw [e2, roundDouble_of_div _ _ (by norm_num)]
  norm_num

/-- The double `1e16` is stored as `-2.7875355283550753`: the sum
`1e16 + Math.PI` is rounded to `1e16 + 4`. -/
theorem wrap_ten_pow_sixteen :
    wrap 10000000000000000 = -784621497923871 / 2 ^ 48 := by
  have e1 : roundDouble (10000000000000000 + MathPI)
      = ((5000000000000002 : ℤ) : ℚ) * (2 : ℚ) ^ ((53 : ℤ) - 52) := by
    apply roundDouble_eq_of_near
    · unfold MathPI; norm_num [abs_of_pos]
    · unfold MathPI; norm_num [abs_of_pos]
    · unfold MathPI
      norm_num [abs_lt]
  have e0 : ((5000000000000002 : ℤ) : ℚ) * (2 : ℚ) ^ ((53 : ℤ) - 52) = 10000000000000004 := by
    norm_num
  rw [e0] at e1
  have ek : truncQ ((10000000000000004 : ℚ) / (MathPI * 2)) = 1591549430918954 := by
    have hq : (0 : ℚ) ≤ 10000000000000004 / (MathPI * 2) := by
      apply div_nonneg (by norm_num); linarith [MathPI_pos]
    rw [truncQ_of_nonneg hq, Int.floor_eq_iff]
    unfold MathPI
    constructor <;> norm_num
  unfold wrap
  rw [e1, ek]
  have e2 : (10000000000000004 : ℚ) - MathPI * 2 * ((1591549430918954 : ℤ) : ℚ) - MathPI
      = ((-784621497923871 : ℤ) : ℚ) / 2 ^ 48 := by
    unfold MathPI; norm_num
  rw [e2, roundDouble_of_div _ _ (by norm_num)]
  norm_num

/-- The double just below `Math.PI` is stored as `-Math.PI`: its sum with
`Math.PI` lies halfway between two doubles and goes to the even one, which is
`Math.PI * 2`. -/
theorem wrap_pi_pred : wrap (MathPI - 1 / 2 ^ 51) = -MathPI := by
  have e1 : roundDouble (MathPI - 1 / 2 ^ 51 + MathPI) = MathPI * 2 := by
    have hx : MathPI - 1 / 2 ^ 51 + MathPI ≠ 0 := by unfold MathPI; norm_num
    have hlog : Int.log 2 |MathPI - 1 / 2 ^ 51 + MathPI| = 2 := by
      apply log_eq_of_bounds
      · unfold MathPI; norm_num [abs_of_pos]
      · unfold MathPI; norm_num [abs_of_pos]
    have hz : (2 : ℚ) ^ ((2 : ℤ) - 52) = 1 / 2 ^ 50 := by
      rw [show ((2 : ℤ) - 52) = -(50 : ℕ) by norm_num, zpow_neg, zpow_natCast]; simp
    have hm : (MathPI - 1 / 2 ^ 51 + MathPI) / (1 / 2 ^ 50)
        = (7074237752028440 : ℚ) - 1 / 2 := by
      unfold MathPI; norm_num
    have hfl : ⌊((7074237752028440 : ℚ) - 1 / 2)⌋ = 7074237752028439 := by
      rw [Int.floor_eq_iff]; norm_num
    have hr : roundHalfEven ((7074237752028440 : ℚ) - 1 / 2) = 7074237752028440 := by
      unfold roundHalfEven
      rw [hfl]
      norm_num
    rw [roundDouble_of_ne hx, hlog, hz, hm, hr]
    unfold MathPI; norm_num
  have e2 : MathPI * 2 / (MathPI * 2) = 1 := div_self (by linarith [MathPI_pos])
  unfold wrap
  rw [e1, e2]
  have : MathPI * 2 - MathPI * 2 * ((truncQ 1 : ℤ) : ℚ) - MathPI = -MathPI := by
    simp [truncQ]
  rw [this, roundDouble_neg_pi]

theorem roundDouble_one : roundDouble 1 = 1 := by
  simpa using roundDouble_intCast_small 1 (by norm_num)

/-! ## `validateArray` -/

theorem validateArray_none_mem {arr : JSArr} {d x : JSNum} (hx : x ∈ validateArray arr d none) :
    x = d ∨ ∃ xs q, arr = .array xs ∧ JSVal.num (.fin q) ∈ xs ∧ x = .fin q := by
  unfold validateArray at hx
  split at hx
  · left; simpa using hx
  · rename_i xs
    split_ifs at hx with hlen
    · left; simpa using hx
    · rw [List.mem_map] at hx
      obtain ⟨v, hv, rfl⟩ := hx
      split
      · rename_i q
        right; exact ⟨xs, q, rfl, hv, rfl⟩
      · left; rfl

theorem validateArray_notArray (v : JSVal) (d : JSNum) (m : Option JSNum) :
    validateArray (.notArray v) d m = [d, d, d] := rfl

theorem validateArray_wrong_length (xs : List JSVal) (d : JSNum) (m : Option JSNum)
    (h : xs.length ≠ 3) : validateArray (.array xs) d m = [d, d, d] := by
  simp [validateArray, h]

theorem validateArray_none_of_length (xs : List JSVal) (d : JSNum) (h : xs.length = 3) :
    validateArray (.array xs) d none =
      xs.map fun v => match v with | .num (.fin q) => .fin q | _ => d := by
  simp only [validateArray, h, ne_eq, not_true_eq_false, if_false]

theorem validateArray_floor_of_length (xs : List JSVal) (d : JSNum) (m : ℚ)
    (h : xs.length = 3) :
    validateArray (.array xs) d (some (.fin m)) =
      xs.map fun v => match v with | .num (.fin q) => .fin (max m q) | _ => d := by
  simp only [validateArray, h, ne_eq, not_true_eq_false, if_false]
  apply List.map_congr_left
  intro v _
  split <;> simp [mathMax]

theorem validateArray_length (arr : JSArr) (d : JSNum) (m : Option JSNum) :
    (validateArray arr d m).length = 3 := by
  unfold validateArray
  split
  · rfl
  · split_ifs with h
    · rfl
    · simpa using h

/-! ## Reading the collection after an update -/

theorem updateLightTransform_getElem (id : String) (t : Transform) (s : State) (i : Nat) :
    (updateLightTransform id t s).lights[i]? =
      (s.lights[i]?).map fun light => if light.id ≠ id then light else applyTransform t light := by
  simp [updateLightTransform]

theorem updateLightProperties_getElem (id : String) (p : Props) (s : State) (i : Nat) :
    (updateLightProperties id p s).lights[i]? =
      (s.lights[i]?).map fun light => if light.id ≠ id then light else applyProperties p light := by
  simp [updateLightProperties]

theorem setShape_rayVisibility (p : Props) (l n : Light) :
    (setShape p l n).rayVisibility = n.rayVisibility := by
  unfold setShape; split <;> rfl

theorem applyProperties_rayVisibility (p : Props) (l : Light) (rv : RayVisibility)
    (h : p.rayVisibility = some rv) :
    (applyProperties p l).rayVisibility = RayVisibility.spread defaultRayVisibility rv := by
  simp [applyProperties, setShape_rayVisibility, setRayVisibility, h]

theorem ids_append (xs ys : List Light) : ids (xs ++ ys) = ids xs ++ ids ys := by
  simp [ids]

/-! ## Drag-reorder -/

theorem findIndex_eq_some_iff (p : Light → Bool) (xs : List Light) (i : Nat) :
    findIndex p xs = some i ↔
      (∃ x, xs[i]? = some x ∧ p x = true) ∧ ∀ j x, j < i → xs[j]? = some x → p x = false := by
  induction xs generalizing i with
  | nil => simp [findIndex]
  | cons y ys ih =>
    unfold findIndex
    by_cases hy : p y = true
    · simp only [hy, if_true, Option.some.injEq]
      constructor
      · rintro rfl
        exact ⟨⟨y, by simp, hy⟩, by intro j x hj; omega⟩
      · rintro ⟨-, h⟩
        by_contra hne
        have := h 0 y (by omega) (by simp)
        simp [hy] at this
    · simp only [hy, Bool.false_eq_true, if_false, Option.map_eq_some']
      constructor
      · rintro ⟨k, hk, rfl⟩
        obtain ⟨⟨x, hx, hpx⟩, hlt⟩ := (ih k).mp hk
        refine ⟨⟨x, by simpa using hx, hpx⟩, ?_⟩
        intro j z hj hz
        cases j with
        | zero => simp at hz; subst hz; simpa using hy
        | succ j => exact hlt j z (by omega) (by simpa using hz)
      · rintro ⟨⟨x, hx, hpx⟩, hlt⟩
        cases i with
        | zero => simp at hx; subst hx; exact absurd hpx hy
        | succ k =>
          refine ⟨k, (ih k).mpr ⟨⟨x, by simpa using hx, hpx⟩, ?_⟩, rfl⟩
          intro j z hj hz
          exact hlt (j + 1) z (by omega) (by simpa using hz)

/-- With pairwise distinct ids, the index of the record with a given id. -/
theorem findIndex_id_of_getElem {xs : List Light} (hnodup : (ids xs).Nodup)
    {i : Nat} {a : Light} (h : xs[i]? = some a) :
    findIndex (fun l => l.id == a.id) xs = some i := by
  rw [findIndex_eq_some_iff]
  refine ⟨⟨a, h, by simp⟩, ?_⟩
  intro j x hj hx
  by_contra hp
  simp only [Bool.not_eq_false, beq_iff_eq] at hp
  unfold ids at hnodup
  rw [List.nodup_iff_getElem?_ne_getElem?] at hnodup
  have hi : i < xs.length := by
    rcases List.getElem?_eq_some_iff.mp h with ⟨hi, -⟩; exact hi
  exact hnodup j i hj (by simpa using hi) (by simp [List.getElem?_map, hx, h, hp])

theorem handleDrop_lights {s : State} {sourceId targetId : String} {si ti : Nat}
    (hne : sourceId ≠ targetId)
    (hs : findIndex (fun l => l.id == sourceId) s.lights = some si)
    (ht : findIndex (fun l => l.id == targetId) s.lights = some ti) :
    (handleDrop sourceId targetId s).lights =
      (s.lights.take si ++ s.lights.drop (si + 1)).take ti ++ (s.lights.drop si).take 1
        ++ (s.lights.take si ++ s.lights.drop (si + 1)).drop ti := by
  simp [handleDrop, hne, hs, ht, splice, List.take_take]

theorem lt_length_of_getElem {xs : List Light} {i : Nat} {a : Light} (h : xs[i]? = some a) :
    i < xs.length := by
  rcases List.getElem?_eq_some_iff.mp h with ⟨hi, -⟩; exact hi

/-- The list that `handleDrop` builds, read at an index. -/
theorem reorder_getElem (xs : List Light) (si ti : Nat) (a : Light) (hs : xs[si]? = some a)
    (hti : ti < xs.length) (j : Nat) :
    ((xs.take si ++ xs.drop (si + 1)).take ti ++ (xs.drop si).take 1
        ++ (xs.take si ++ xs.drop (si + 1)).drop ti)[j]? =
      if j < ti then (if j < si then xs[j]? else xs[j + 1]?)
      else if j = ti then some a
      else (if j - 1 < si then xs[j - 1]? else xs[j]?) := by
  have hsi := lt_length_of_getElem hs
  have hrem : (xs.drop si).take 1 = [a] := by
    rw [List.drop_eq_getElem_cons hsi]
    have : xs[si] = a := by
      have := List.getElem?_eq_getElem hsi
      rw [this] at hs; exact Option.some.inj hs
    simp [this]
  rw [hrem]
  have hlen : (xs.take si ++ xs.drop (si + 1)).length = xs.length - 1 := by
    simp; omega
  have htake : ((xs.take si ++ xs.drop (si + 1)).take ti).length = ti := by
    rw [List.length_take, hlen]; omega
  have hmid : ∀ k, (xs.take si ++ xs.drop (si + 1))[k]? = if k < si then xs[k]? else xs[k + 1]? := by
    intro k
    by_cases hk : k < si
    · rw [List.getElem?_append_left (by simp; omega)]
      simp [hk, List.getElem?_take]
    · rw [List.getElem?_append_right (by simp; omega)]
      simp only [hk, if_false, List.getElem?_drop, List.length_take]
      congr 1
      omega
  by_cases h1 : j < ti
  · rw [List.append_assoc, List.getElem?_append_left (by omega)]
    simp only [h1, if_true, List.getElem?_take, hmid]
  · rw [List.append_assoc, List.getElem?_append_right (by omega), htake]
    by_cases h2 : j = ti
    · subst h2; simp
    · simp only [h1, h2, if_false]
      have : j - ti = (j - ti - 1) + 1 := by omega
      rw [this, List.singleton_append, List.getElem?_cons_succ, List.getElem?_drop, hmid]
      have e : ti + (j - ti - 1) = j - 1 := by omega
      rw [e]
      have e2 : j - 1 + 1 = j := by omega
      rw [e2]

/-! # Claims -/

/-! ## C1: a transform update with only some of the fields -/

/-- Claim C1 (code defect), evaluated on the store.  A light is added, given
rotation `[1, 0, 0]` and scale `[2, 2, 2]`, and then updated with a transform
that carries only `position`, as the transform panel sends.  The absent
fields are not left as they were: `validateArray(undefined, ...)` yields the
defaults, so the stored rotation becomes `[0, 0, 0]` and the stored scale
`[1, 1, 1]`. -/
theorem position_only_update_resets_rotation_and_scale :
    (updateLightTransform "a"
        ⟨.array [.num (.fin 0), .num (.fin 5), .num (.fin 0)],
         .array [.num (.fin 1), .num (.fin 0), .num (.fin 0)],
         .array [.num (.fin 2), .num (.fin 2), .num (.fin 2)]⟩
        (addLight "a" "point" State.initial)).lights.map
        (fun l => (l.position, l.rotation, l.scale))
      = [([.fin 0, .fin 5, .fin 0], [.fin 1, .fin 0, .fin 0], [.fin 2, .fin 2, .fin 2])]
    ∧
    (updateLightTransform "a"
        ⟨.array [.num (.fin 1), .num (.fin 5), .num (.fin 0)], .notArray .undefined,
          .notArray .undefined⟩
        (updateLightTransform "a"
          ⟨.array [.num (.fin 0), .num (.fin 5), .num (.fin 0)],
           .array [.num (.fin 1), .num (.fin 0), .num (.fin 0)],
           .array [.num (.fin 2), .num (.fin 2), .num (.fin 2)]⟩
          (addLight "a" "point" State.initial))).lights.map
        (fun l => (l.position, l.rotation, l.scale))
      = [([.fin 1, .fin 5, .fin 0], [.fin 0, .fin 0, .fin 0], [.fin 1, .fin 1, .fin 1])] := by
  have h1 : wrap 1 = 1 := wrap_one
  constructor
  · simp [updateLightTransform, applyTransform, addLight, State.initial, createDefaultLight,
      validateArray, normalizeRotation_eq, wrap_zero, h1, mathMax]
    norm_num
  · simp [updateLightTransform, applyTransform, addLight, State.initial, createDefaultLight,
      validateArray, normalizeRotation_eq, wrap_zero, h1, mathMax]

/-! ## C2: range of the stored rotation -/

/-- Claim C2, counterexample.  For the rotation input `[Math.PI, -4, 0]` the
stored rotation is `[-Math.PI, -4, 0]`: the first component is not strictly
greater than `-pi`, and the second is below `-pi`, because `%` keeps the sign
of the dividend. -/
theorem rotation_pi_and_minus_four_stored :
    (updateLightTransform "a"
        ⟨.notArray .undefined, .array [.num (.fin MathPI), .num (.fin (-4)), .num (.fin 0)],
          .notArray .undefined⟩
        (addLight "a" "point" State.initial)).lights.map (fun l => l.rotation)
      = [[.fin (-MathPI), .fin (-4), .fin 0]]
    ∧ ¬ (-MathPI < -MathPI) ∧ ¬ (-MathPI < (-4 : ℚ)) := by
  refine ⟨?_, lt_irrefl _, by linarith [MathPI_lt_four]⟩
  have h4 : wrap (-4) = -4 := wrap_neg_four
  simp [updateLightTransform, applyTransform, addLight, State.initial, createDefaultLight,
    validateArray, normalizeRotation_eq, wrap_zero, wrap_pi, h4]

/-- Claim C2 (amended).  For a light present in the collection (at index `i`,
with the id of the call) and every rotation input (a non-array, an array of
the wrong length, or an array of three entries of any kind) whose finite
entries are all at least `-pi`, every component of the rotation stored by
`updateLightTransform` is finite and lies in `[-pi, pi)`. -/
theorem updateLightTransform_rotation_range (s : State) (id : String) (t : Transform)
    (i : Nat) (l : Light) (hl : s.lights[i]? = some l) (hid : l.id = id)
    (hge : ∀ xs, t.rotation = .array xs → ∀ q, JSVal.num (.fin q) ∈ xs → -MathPI ≤ q) :
    ∃ r, (updateLightTransform id t s).lights[i]? = some r ∧
      ∀ x ∈ r.rotation, ∃ q, x = .fin q ∧ -MathPI ≤ q ∧ q < MathPI := by
  refine ⟨applyTransform t l, ?_, ?_⟩
  · simp [updateLightTransform_getElem, hl, hid]
  · intro x hx
    simp only [applyTransform, normalizeRotation_eq, List.mem_map] at hx
    obtain ⟨v, hv, rfl⟩ := hx
    rcases validateArray_none_mem hv with rfl | ⟨xs, q, harr, hq, rfl⟩
    · exact ⟨wrap 0, rfl, by rw [wrap_zero]; linarith [MathPI_pos],
        by rw [wrap_zero]; exact MathPI_pos⟩
    · exact ⟨wrap q, rfl, wrap_bounds (hge xs harr q hq)⟩

/-- Witness for C2 (amended): a light just added, updated with the rotation
`[1, NaN, "x"]`. -/
theorem updateLightTransform_rotation_range_witness :
    (addLight "a" "point" State.initial).lights[0]? = some (createDefaultLight "a" "point") ∧
    (createDefaultLight "a" "point").id = "a" ∧
    ∃ r, (updateLightTransform "a"
        ⟨.notArray .undefined, .array [.num (.fin 1), .num .nan, .str "x"], .notArray .undefined⟩
        (addLight "a" "point" State.initial)).lights[0]? = some r ∧
      ∀ x ∈ r.rotation, ∃ q, x = .fin q ∧ -MathPI ≤ q ∧ q < MathPI :=
  ⟨rfl, rfl, updateLightTransform_rotation_range _ "a" _ 0 (createDefaultLight "a" "point")
    rfl rfl
    (by
      intro xs hxs q hq
      simp only [JSArr.array.injEq] at hxs
      subst hxs
      simp at hq
      subst hq
      linarith [MathPI_pos])⟩

/-! ## C3: where the dragged record lands -/

/-- Claim C3, counterexample.  In the collection `a, b, c` the record `a` is
dragged onto `b`, a source that is before its target.  The result is
`b, a, c`: the source sits at index 1, immediately after the target at
index 0, not before it. -/
theorem handleDrop_source_before_target :
    (handleDrop "a" "b" ⟨[createDefaultLight "a" "point", createDefaultLight "b" "point",
        createDefaultLight "c" "point"], none⟩).lights.map (fun l => l.id) = ["b", "a", "c"]
    ∧ findIndex (fun l => l.id == "a")
        (handleDrop "a" "b" ⟨[createDefaultLight "a" "point", createDefaultLight "b" "point",
          createDefaultLight "c" "point"], none⟩).lights = some 1
    ∧ findIndex (fun l => l.id == "b")
        (handleDrop "a" "b" ⟨[createDefaultLight "a" "point", createDefaultLight "b" "point",
          createDefaultLight "c" "point"], none⟩).lights = some 0 := by
  refine ⟨?_, ?_, ?_⟩ <;> decide

/-- Claim C3 (amended).  For a collection with pairwise distinct ids and
different ids `sourceId` (record `a` at index `si`) and `targetId` (record
`b` at index `ti`), after `handleDrop` the source record is at the index `ti`
that the target had before the call.  The target is then immediately after it
(index `ti + 1`) when the source was originally after the target, and
immediately before it (index `ti - 1`) when the source was originally before
the target. -/
theorem handleDrop_source_at_target_index (s : State) (sourceId targetId : String)
    (si ti : Nat) (a b : Light)
    (hnodup : (ids s.lights).Nodup) (hne : sourceId ≠ targetId)
    (hs : s.lights[si]? = some a) (hsid : a.id = sourceId)
    (ht : s.lights[ti]? = some b) (htid : b.id = targetId) :
    (handleDrop sourceId targetId s).lights[ti]? = some a ∧
    (ti < si → (handleDrop sourceId targetId s).lights[ti + 1]? = some b) ∧
    (si < ti → (handleDrop sourceId targetId s).lights[ti - 1]? = some b) := by
  have hfs := findIndex_id_of_getElem hnodup hs
  have hft := findIndex_id_of_getElem hnodup ht
  rw [hsid] at hfs
  rw [htid] at hft
  have hti := lt_length_of_getElem ht
  rw [handleDrop_lights hne hfs hft]
  refine ⟨?_, ?_, ?_⟩
  · rw [reorder_getElem _ _ _ _ hs hti]; simp
  · intro h
    rw [reorder_getElem _ _ _ _ hs hti]
    simp [h, ht]
  · intro h
    rw [reorder_getElem _ _ _ _ hs hti]
    have h1 : ti - 1 < ti := by omega
    have h2 : ¬ ti - 1 < si := by omega
    have h3 : ti - 1 + 1 = ti := by omega
    simp [h1, h2, h3, ht]

/-- Witness for C3 (amended): in `a, b, c` the record `a` (index 0) is
dragged onto `c` (index 2). -/
theorem handleDrop_source_at_target_index_witness :
    ((ids [createDefaultLight "a" "point", createDefaultLight "b" "point",
        createDefaultLight "c" "point"]).Nodup ∧ "a" ≠ "c") ∧
    ((handleDrop "a" "c" ⟨[createDefaultLight "a" "point", createDefaultLight "b" "point",
        createDefaultLight "c" "point"], none⟩).lights[2]? = some (createDefaultLight "a" "point") ∧
     (2 < 0 → (handleDrop "a" "c" ⟨[createDefaultLight "a" "point",
        createDefaultLight "b" "point", createDefaultLight "c" "point"], none⟩).lights[2 + 1]?
          = some (createDefaultLight "c" "point")) ∧
     (0 < 2 → (handleDrop "a" "c" ⟨[createDefaultLight "a" "point",
        createDefaultLight "b" "point", createDefaultLight "c" "point"], none⟩).lights[2 - 1]?
          = some (createDefaultLight "c" "point"))) :=
  ⟨⟨by decide, by decide⟩,
    handleDrop_source_at_target_index
      ⟨[createDefaultLight "a" "point", createDefaultLight "b" "point",
        createDefaultLight "c" "point"], none⟩ "a" "c" 0 2
      (createDefaultLight "a" "point") (createDefaultLight "c" "point")
      (by decide) (by decide) rfl rfl rfl rfl⟩

/-! ## C4: selecting twice -/

/-- Claim C4, counterexample.  When `a` is already selected (it was just
added), two consecutive calls `selectLight("a")` end with `a` selected, not
with no selection. -/
theorem selectLight_twice_when_selected :
    (addLight "a" "point" State.initial).selectedLight = some "a" ∧
    (selectLight (some "a") (selectLight (some "a")
      (addLight "a" "point" State.initial))).selectedLight = some "a" := by
  constructor <;> decide

/-- Claim C4 (amended).  For every state and every id (`null` included), two
consecutive calls `selectLight(id)` leave the selection at none when the
selection before the calls differs from `id`, and at `id` when `id` was
already selected. -/
theorem selectLight_twice (s : State) (id : Option String) :
    (selectLight id (selectLight id s)).selectedLight =
      if s.selectedLight = id then id else none := by
  unfold selectLight
  by_cases h : s.selectedLight = id
  · cases id with
    | none => simp [h]
    | some a => simp [h]
  · simp [h]

/-! ## C5: merge of a ray-visibility object -/

/-- Claim C5, counterexample.  A light gets `diffuse: false` (all four keys
given), then an update whose `rayVisibility` has only `glossy: false`.  The
unspecified key `diffuse` does not keep its value `false`: it is `true`
afterwards, the value of `defaultRayVisibility`. -/
theorem rayVisibility_unspecified_key_reset :
    ((updateLightProperties "a"
        { Props.empty with rayVisibility := some ⟨some false, some true, some true, some true⟩ }
        (addLight "a" "point" State.initial)).lights.map fun l => l.rayVisibility.diffuse)
      = [some false] ∧
    ((updateLightProperties "a"
        { Props.empty with rayVisibility := some ⟨none, some false, none, none⟩ }
        (updateLightProperties "a"
          { Props.empty with rayVisibility := some ⟨some false, some true, some true, some true⟩ }
          (addLight "a" "point" State.initial))).lights.map fun l => l.rayVisibility.diffuse)
      = [some true] := by
  constructor <;> decide

/-- Claim C5 (amended).  For a light present in the collection (at index `i`,
with the id of the call) and every update whose `rayVisibility` object `rv`
specifies only some of the four keys, after `updateLightProperties` each
specified key has the given value and each key that is not specified has the
default value `true`, whatever the record had before. -/
theorem updateLightProperties_rayVisibility (s : State) (id : String) (p : Props)
    (rv : RayVisibility) (i : Nat) (l : Light)
    (hl : s.lights[i]? = some l) (hid : l.id = id) (hrv : p.rayVisibility = some rv) :
    ∃ r, (updateLightProperties id p s).lights[i]? = some r ∧
      r.rayVisibility.diffuse = some (rv.diffuse.getD true) ∧
      r.rayVisibility.glossy = some (rv.glossy.getD true) ∧
      r.rayVisibility.transmission = some (rv.transmission.getD true) ∧
      r.rayVisibility.volumeScatter = some (rv.volumeScatter.getD true) := by
  refine ⟨applyProperties p l, ?_, ?_⟩
  · simp [updateLightProperties_getElem, hl, hid]
  · rw [applyProperties_rayVisibility p l rv hrv]
    simp only [RayVisibility.spread, defaultRayVisibility]
    refine ⟨?_, ?_, ?_, ?_⟩
    · cases rv.diffuse <;> rfl
    · cases rv.glossy <;> rfl
    · cases rv.transmission <;> rfl
    · cases rv.volumeScatter <;> rfl

/-- Witness for C5 (amended): a light just added, updated with
`rayVisibility: { glossy: false }`. -/
theorem updateLightProperties_rayVisibility_witness :
    ((addLight "a" "point" State.initial).lights[0]? = some (createDefaultLight "a" "point") ∧
      (createDefaultLight "a" "point").id = "a" ∧
      ({ Props.empty with rayVisibility := some ⟨none, some false, none, none⟩ } :
        Props).rayVisibility = some ⟨none, some false, none, none⟩) ∧
    ∃ r, (updateLightProperties "a"
        { Props.empty with rayVisibility := some ⟨none, some false, none, none⟩ }
        (addLight "a" "point" State.initial)).lights[0]? = some r ∧
      r.rayVisibility.diffuse = some true ∧
      r.rayVisibility.glossy = some false ∧
      r.rayVisibility.transmission = some true ∧
      r.rayVisibility.volumeScatter = some true :=
  ⟨⟨rfl, rfl, rfl⟩,
    updateLightProperties_rayVisibility (addLight "a" "point" State.initial) "a"
      { Props.empty with rayVisibility := some ⟨none, some false, none, none⟩ }
      ⟨none, some false, none, none⟩ 0 (createDefaultLight "a" "point") rfl rfl rfl⟩

/-! ## C6: uniqueness of ids -/

/-- Claim C6.  In every state reached from the empty registry by a finite
sequence of `addLight`, `removeLight` and `duplicateLight` calls in which
each generated id is not in the collection at the time of the call, the ids
of the records are pairwise distinct. -/
theorem reachable_ids_nodup (s : State) (h : ReachableByAddRemoveDuplicate s) :
    (ids s.lights).Nodup := by
  induction h with
  | initial => simp [State.initial, ids]
  | addLight newId type _ hfresh ih =>
    simp only [addLight, ids_append]
    rw [List.nodup_append]
    refine ⟨ih, by simp [ids], ?_⟩
    intro a ha hb
    simp [ids, createDefaultLight] at hb
    subst hb
    exact hfresh ha
  | removeLight id _ ih =>
    simp only [removeLight]
    exact List.Nodup.sublist (List.Sublist.map _ (List.filter_sublist _)) ih
  | @duplicateLight s newId id _ hfresh ih =>
    unfold duplicateLight
    split
    · exact ih
    · simp only [ids_append]
      rw [List.nodup_append]
      refine ⟨ih, by simp [ids], ?_⟩
      intro a ha hb
      simp [ids] at hb
      subst hb
      exact hfresh ha

/-- Witness for C6: add `a`, duplicate it as `b`, remove `a`. -/
theorem reachable_ids_nodup_witness :
    ReachableByAddRemoveDuplicate
      (removeLight "a" (duplicateLight "b" "a" (addLight "a" "point" State.initial))) ∧
    (ids (removeLight "a"
      (duplicateLight "b" "a" (addLight "a" "point" State.initial))).lights).Nodup :=
  ⟨.removeLight "a" (.duplicateLight "b" "a" (.addLight "a" "point" .initial (by decide))
      (by decide)),
    reachable_ids_nodup _
      (.removeLight "a" (.duplicateLight "b" "a" (.addLight "a" "point" .initial (by decide))
        (by decide)))⟩

/-! ## C7: the stored scale -/

/-- On an array without holes `validateArrayWithHoles` is `validateArray`. -/
theorem validateArrayWithHoles_of_entries (xs : List JSVal) (d : JSNum) (m : Option JSNum) :
    validateArrayWithHoles (xs.map some) d m = (validateArray (.array xs) d m).map some := by
  unfold validateArrayWithHoles validateArray
  by_cases h : xs.length = 3
  · simp only [List.length_map, h, ne_eq, not_true_eq_false, if_false, List.map_map]
    apply List.map_congr_left
    intro v _
    cases v with
    | num n => cases n <;> cases m <;> rfl
    | undefined => rfl
    | null => rfl
    | bool b => rfl
    | str t => rfl
    | obj => rfl
  · simp [h]

/-- The stored scale for a scale input without holes.  For a light present in
the collection (at index `i`, with the id of the call) and every scale input
that is not an array, is an array of the wrong length, or is an array of three
entries of any kind, the scale stored by `updateLightTransform` has exactly
three entries, each of them finite and at least `0.1`. -/
theorem updateLightTransform_scale_bounds (s : State) (id : String) (t : Transform)
    (i : Nat) (l : Light) (hl : s.lights[i]? = some l) (hid : l.id = id) :
    ∃ r, (updateLightTransform id t s).lights[i]? = some r ∧
      r.scale.length = 3 ∧ ∀ x ∈ r.scale, ∃ q : ℚ, x = .fin q ∧ 1 / 10 ≤ q := by
  refine ⟨applyTransform t l, ?_, by simp only [applyTransform, validateArray_length], ?_⟩
  · simp [updateLightTransform_getElem, hl, hid]
  · intro x hx
    simp only [applyTransform] at hx
    have h1 : ∃ q : ℚ, (JSNum.fin 1) = .fin q ∧ 1 / 10 ≤ q := ⟨1, rfl, by norm_num⟩
    cases harr : t.scale with
    | notArray v =>
      rw [harr, validateArray_notArray] at hx
      simp at hx; subst hx; exact h1
    | array xs =>
      rw [harr] at hx
      by_cases hlen : xs.length = 3
      · rw [validateArray_floor_of_length _ _ _ hlen, List.mem_map] at hx
        obtain ⟨v, -, rfl⟩ := hx
        split
        · exact ⟨_, rfl, le_max_left _ _⟩
        · exact h1
      · rw [validateArray_wrong_length _ _ _ hlen] at hx
        simp at hx; subst hx; exact h1

/-- Claim C7, the code at the failing input.  For the scale `[2, , 3]`, an
array of length 3 with a hole at index 1, the value of
`validateArray(scale, 1, 0.1)`, which `updateLightTransform` stores as the
scale, is `[2, , 3]` again: the length check passes and `map` leaves the hole.
The stored scale has no entry at index 1, where the claim promises a finite
number of at least `0.1`. -/
theorem validateArray_keeps_hole :
    validateArrayWithHoles [some (.num (.fin 2)), none, some (.num (.fin 3))] (.fin 1)
        (some (.fin (1 / 10)))
      = [some (.fin 2), none, some (.fin 3)] ∧
    (validateArrayWithHoles [some (.num (.fin 2)), none, some (.num (.fin 3))] (.fin 1)
        (some (.fin (1 / 10))))[1]? = some none := by
  constructor
  · simp [validateArrayWithHoles, mathMax]
    norm_num
  · simp [validateArrayWithHoles]

/-! ## C8: the stored position and scale -/

/-- Claim C8.  For a light present in the collection (at index `i`, with the
id of the call), `updateLightTransform` stores the position as follows: an
array of exactly three finite numbers is stored unchanged; in an array of
exactly three entries every entry that is not a finite number is replaced by
`0` and every finite entry is kept; a value that is not an array, or an array
whose length is not 3, gives `[0, 0, 0]`.  The stored scale follows the same
rule with default `1`, finite entries being raised to at least `0.1`. -/
theorem updateLightTransform_position_scale_rule (s : State) (id : String) (t : Transform)
    (i : Nat) (l : Light) (hl : s.lights[i]? = some l) (hid : l.id = id) :
    ∃ r, (updateLightTransform id t s).lights[i]? = some r ∧
      (∀ a b c : ℚ, t.position = .array [.num (.fin a), .num (.fin b), .num (.fin c)] →
        r.position = [.fin a, .fin b, .fin c]) ∧
      (∀ xs, t.position = .array xs → xs.length = 3 →
        r.position = xs.map fun v => match v with | .num (.fin q) => .fin q | _ => .fin 0) ∧
      (∀ v, t.position = .notArray v → r.position = [.fin 0, .fin 0, .fin 0]) ∧
      (∀ xs, t.position = .array xs → xs.length ≠ 3 → r.position = [.fin 0, .fin 0, .fin 0]) ∧
      (∀ xs, t.scale = .array xs → xs.length = 3 →
        r.scale = xs.map fun v =>
          match v with | .num (.fin q) => .fin (max (1 / 10) q) | _ => .fin 1) ∧
      (∀ v, t.scale = .notArray v → r.scale = [.fin 1, .fin 1, .fin 1]) ∧
      (∀ xs, t.scale = .array xs → xs.length ≠ 3 → r.scale = [.fin 1, .fin 1, .fin 1]) := by
  refine ⟨applyTransform t l, ?_, ?_, ?_, ?_, ?_, ?_, ?_, ?_⟩
  · simp [updateLightTransform_getElem, hl, hid]
  · intro a b c h
    simp [applyTransform, h, validateArray]
  · intro xs h hlen
    simp only [applyTransform, h, validateArray_none_of_length _ _ hlen]
  · intro v h
    simp [applyTransform, h, validateArray]
  · intro xs h hlen
    simp only [applyTransform, h, validateArray_wrong_length _ _ _ hlen]
  · intro xs h hlen
    simp only [applyTransform, h, validateArray_floor_of_length _ _ _ hlen]
  · intro v h
    simp [applyTransform, h, validateArray]
  · intro xs h hlen
    simp only [applyTransform, h, validateArray_wrong_length _ _ _ hlen]

/-- Witness for C8: a light just added, updated with position
`[1, NaN, 3]` and scale `[0, 2, "x"]`. -/
theorem updateLightTransform_position_scale_rule_witness :
    ((addLight "a" "point" State.initial).lights[0]? = some (createDefaultLight "a" "point") ∧
      (createDefaultLight "a" "point").id = "a") ∧
    ∃ r, (updateLightTransform "a"
        ⟨.array [.num (.fin 1), .num .nan, .num (.fin 3)], .notArray .undefined,
          .array [.num (.fin 0), .num (.fin 2), .str "x"]⟩
        (addLight "a" "point" State.initial)).lights[0]? = some r ∧
      r.position = [.fin 1, .fin 0, .fin 3] ∧
      r.scale = [.fin (max (1 / 10) 0), .fin (max (1 / 10) 2), .fin 1] := by
  refine ⟨⟨rfl, rfl⟩, ?_⟩
  obtain ⟨r, hr, -, hpos, -, -, hscale, -, -⟩ :=
    updateLightTransform_position_scale_rule (addLight "a" "point" State.initial) "a"
      ⟨.array [.num (.fin 1), .num .nan, .num (.fin 3)], .notArray .undefined,
        .array [.num (.fin 0), .num (.fin 2), .str "x"]⟩
      0 (createDefaultLight "a" "point") rfl rfl
  exact ⟨r, hr, hpos _ rfl rfl, hscale _ rfl rfl⟩

/-! ## C9: rotations that are already normalized -/

/-- Claim C9, counterexample.  The rotation whose entries are `Math.PI`, the
double `0.1` and the double just below `Math.PI`, all three in `(-pi, pi]`, is
stored as `-Math.PI`, the double `0.10000000000000009` and `-Math.PI`: none of
the three components is kept. -/
theorem rotation_pi_not_kept :
    (updateLightTransform "a"
        ⟨.notArray .undefined,
          .array [.num (.fin MathPI), .num (.fin (3602879701896397 / 2 ^ 55)),
            .num (.fin (MathPI - 1 / 2 ^ 51))],
          .notArray .undefined⟩
        (addLight "a" "point" State.initial)).lights.map (fun l => l.rotation)
      = [[.fin (-MathPI), .fin (225179981368525 / 2 ^ 51), .fin (-MathPI)]]
    ∧ (-MathPI < MathPI ∧ MathPI ≤ MathPI)
    ∧ (-MathPI < (3602879701896397 / 2 ^ 55 : ℚ) ∧ (3602879701896397 / 2 ^ 55 : ℚ) ≤ MathPI)
    ∧ (-MathPI < MathPI - 1 / 2 ^ 51 ∧ MathPI - 1 / 2 ^ 51 ≤ MathPI)
    ∧ -MathPI ≠ MathPI
    ∧ (225179981368525 / 2 ^ 51 : ℚ) ≠ 3602879701896397 / 2 ^ 55
    ∧ -MathPI ≠ MathPI - 1 / 2 ^ 51 := by
  refine ⟨?_, ⟨by linarith [MathPI_pos], le_refl _⟩, ⟨?_, ?_⟩, ⟨?_, ?_⟩, ?_, by norm_num, ?_⟩
  · simp [updateLightTransform, applyTransform, addLight, State.initial,
      createDefaultLight, validateArray, normalizeRotation_eq]
    exact ⟨wrap_pi, wrap_tenth, by simpa using wrap_pi_pred⟩
  · unfold MathPI; norm_num
  · unfold MathPI; norm_num
  · unfold MathPI; norm_num
  · unfold MathPI; norm_num
  · unfold MathPI; norm_num
  · unfold MathPI; norm_num

/-- Claim C9 (amended).  For a light present in the collection (at index `i`,
with the id of the call) and every rotation vector of three finite numbers
each in `[-Math.PI, Math.PI - 2^-50]`, `updateLightTransform` stores a
rotation of three finite numbers, each within `2^-50` of the given one; a
component that is an integer multiple of `2^-50` is stored unchanged.  In
particular `[0, 0, 0]` is stored as `[0, 0, 0]`. -/
theorem updateLightTransform_rotation_in_range_kept (s : State) (id : String) (t : Transform)
    (i : Nat) (l : Light) (a b c : ℚ) (hl : s.lights[i]? = some l) (hid : l.id = id)
    (hr : t.rotation = .array [.num (.fin a), .num (.fin b), .num (.fin c)])
    (ha : -MathPI ≤ a ∧ a ≤ MathPI - 1 / 2 ^ 50) (hb : -MathPI ≤ b ∧ b ≤ MathPI - 1 / 2 ^ 50)
    (hc : -MathPI ≤ c ∧ c ≤ MathPI - 1 / 2 ^ 50) :
    ∃ r, (updateLightTransform id t s).lights[i]? = some r ∧
      ∃ a1 b1 c1 : ℚ, r.rotation = [.fin a1, .fin b1, .fin c1] ∧
        |a1 - a| ≤ 1 / 2 ^ 50 ∧ |b1 - b| ≤ 1 / 2 ^ 50 ∧ |c1 - c| ≤ 1 / 2 ^ 50 ∧
        ((∃ n : ℤ, a = (n : ℚ) / 2 ^ 50) → a1 = a) ∧
        ((∃ n : ℤ, b = (n : ℚ) / 2 ^ 50) → b1 = b) ∧
        ((∃ n : ℤ, c = (n : ℚ) / 2 ^ 50) → c1 = c) := by
  have hlt : ∀ q : ℚ, q ≤ MathPI - 1 / 2 ^ 50 → q < MathPI := by
    intro q hq
    have : (0 : ℚ) < 1 / 2 ^ 50 := by positivity
    linarith
  refine ⟨applyTransform t l, ?_, wrap a, wrap b, wrap c, ?_, wrap_near ha.1 ha.2,
    wrap_near hb.1 hb.2, wrap_near hc.1 hc.2, wrap_eq_self ha.1 (hlt a ha.2),
    wrap_eq_self hb.1 (hlt b hb.2), wrap_eq_self hc.1 (hlt c hc.2)⟩
  · simp [updateLightTransform_getElem, hl, hid]
  · simp [applyTransform, hr, validateArray, normalizeRotation_eq]

/-- Witness for C9 (amended): the rotation `[0, 1/2, -3]` on a light just
added is stored as it is. -/
theorem updateLightTransform_rotation_in_range_kept_witness :
    ((addLight "a" "point" State.initial).lights[0]? = some (createDefaultLight "a" "point") ∧
      (createDefaultLight "a" "point").id = "a" ∧
      (-MathPI ≤ (0 : ℚ) ∧ (0 : ℚ) ≤ MathPI - 1 / 2 ^ 50) ∧
      (-MathPI ≤ (1 / 2 : ℚ) ∧ (1 / 2 : ℚ) ≤ MathPI - 1 / 2 ^ 50) ∧
      (-MathPI ≤ (-3 : ℚ) ∧ (-3 : ℚ) ≤ MathPI - 1 / 2 ^ 50)) ∧
    ∃ r, (updateLightTransform "a"
        ⟨.notArray .undefined, .array [.num (.fin 0), .num (.fin (1 / 2)), .num (.fin (-3))],
          .notArray .undefined⟩
        (addLight "a" "point" State.initial)).lights[0]? = some r ∧
      r.rotation = [.fin 0, .fin (1 / 2), .fin (-3)] := by
  have h0 : -MathPI ≤ (0 : ℚ) ∧ (0 : ℚ) ≤ MathPI - 1 / 2 ^ 50 := by
    unfold MathPI; constructor <;> norm_num
  have h1 : -MathPI ≤ (1 / 2 : ℚ) ∧ (1 / 2 : ℚ) ≤ MathPI - 1 / 2 ^ 50 := by
    unfold MathPI; constructor <;> norm_num
  have h2 : -MathPI ≤ (-3 : ℚ) ∧ (-3 : ℚ) ≤ MathPI - 1 / 2 ^ 50 := by
    unfold MathPI; constructor <;> norm_num
  refine ⟨⟨rfl, rfl, h0, h1, h2⟩, ?_⟩
  obtain ⟨r, hr, a1, b1, c1, hrot, -, -, -, ea, eb, ec⟩ :=
    updateLightTransform_rotation_in_range_kept (addLight "a" "point" State.initial) "a"
      ⟨.notArray .undefined, .array [.num (.fin 0), .num (.fin (1 / 2)), .num (.fin (-3))],
        .notArray .undefined⟩
      0 (createDefaultLight "a" "point") 0 (1 / 2) (-3) rfl rfl rfl h0 h1 h2
  refine ⟨r, hr, ?_⟩
  rw [hrot, ea ⟨0, by norm_num⟩, eb ⟨2 ^ 49, by norm_num⟩, ec ⟨-(3 * 2 ^ 50), by norm_num⟩]

/-! ## C10: duplication -/

/-- Claim C10.  For every state and every id of a record `L` of the
collection (the one that `find` returns), `duplicateLight` with a generated
id that is not in the collection yields the old collection with exactly one
record `N` appended at the end.  `N` has the generated id, which differs from
every id already present, the name `L.name + " Copy"` (`L.type + " Copy"`
when `L.name` is empty), the position
`[L.position[0] + 1, L.position[1], L.position[2]]`, every other field equal
to that of `L`, and `N` is selected. -/
theorem duplicateLight_appends_copy (s : State) (id newId : String) (L : Light)
    (hfind : s.lights.find? (fun light => light.id == id) = some L)
    (hfresh : newId ∉ ids s.lights) :
    ∃ N, (duplicateLight newId id s).lights = s.lights ++ [N] ∧
      (duplicateLight newId id s).selectedLight = some N.id ∧
      N.id = newId ∧ (∀ M ∈ s.lights, M.id ≠ N.id) ∧
      N.name = (if L.name = "" then L.type else L.name) ++ " Copy" ∧
      N.position = [jsAdd (index L.position 0) (.fin 1), index L.position 1, index L.position 2] ∧
      (∀ x y z, L.position = [x, y, z] → N.position = [jsAdd x (.fin 1), y, z]) ∧
      N.type = L.type ∧ N.rotation = L.rotation ∧ N.scale = L.scale ∧ N.power = L.power ∧
      N.color = L.color ∧ N.radius = L.radius ∧ N.softFalloff = L.softFalloff ∧
      N.shadow = L.shadow ∧ N.shadowBias = L.shadowBias ∧ N.shadowRadius = L.shadowRadius ∧
      N.angle = L.angle ∧ N.penumbra = L.penumbra ∧ N.rayVisibility = L.rayVisibility ∧
      N.shape = L.shape := by
  simp only [duplicateLight, hfind]
  refine ⟨_, rfl, rfl, rfl, ?_, ?_, rfl, ?_, rfl, rfl, rfl, rfl, rfl, rfl, rfl, rfl, rfl, rfl,
    rfl, rfl, rfl, rfl⟩
  · intro M hM h
    apply hfresh
    simp only [ids, List.mem_map]
    exact ⟨M, hM, h⟩
  · by_cases h : L.name = "" <;> simp [h]
  · intro x y z h
    simp [h, index]

/-- Witness for C10: `addLight('point')` with id `a`, then
`duplicateLight('a')` with generated id `b`. -/
theorem duplicateLight_appends_copy_witness :
    ((addLight "a" "point" State.initial).lights.find? (fun light => light.id == "a")
        = some (createDefaultLight "a" "point") ∧
      "b" ∉ ids (addLight "a" "point" State.initial).lights) ∧
    ∃ N, (duplicateLight "b" "a" (addLight "a" "point" State.initial)).lights
        = (addLight "a" "point" State.initial).lights ++ [N] ∧
      (duplicateLight "b" "a" (addLight "a" "point" State.initial)).selectedLight = some N.id ∧
      N.id = "b" ∧ N.name = "point Copy" ∧ N.position = [.fin 1, .fin 5, .fin 0] := by
  have hfind : (addLight "a" "point" State.initial).lights.find? (fun light => light.id == "a")
      = some (createDefaultLight "a" "point") := by
    simp [addLight, State.initial, createDefaultLight]
  have hfresh : "b" ∉ ids (addLight "a" "point" State.initial).lights := by decide
  refine ⟨⟨hfind, hfresh⟩, ?_⟩
  obtain ⟨N, h1, h2, h3, -, h5, -, h7, -⟩ :=
    duplicateLight_appends_copy (addLight "a" "point" State.initial) "a" "b"
      (createDefaultLight "a" "point") hfind hfresh
  refine ⟨N, h1, h2, h3, ?_, ?_⟩
  · rw [h5]; simp [createDefaultLight]
  · rw [h7 (.fin 0) (.fin 5) (.fin 0) rfl]
    simp [jsAdd, roundDouble_one]

/-! # Lemmas on property updates and no-op cases -/

theorem setName_eq (p : Props) (l : Light) :
    setName p l = { l with name := p.name.getD l.name } := by
  unfold setName; cases p.name <;> rfl

theorem setPower_eq (p : Props) (l : Light) :
    setPower p l =
      { l with power := match p.power with | .num q => mathMax (.fin 0) q | _ => l.power } := by
  unfold setPower; cases p.power <;> rfl

theorem setRadius_eq (p : Props) (l : Light) :
    setRadius p l =
      { l with
        radius := match p.radius with | .num q => mathMax (.fin (1 / 10)) q | _ => l.radius } := by
  unfold setRadius; cases p.radius <;> rfl

theorem setAngle_eq (p : Props) (l : Light) :
    setAngle p l =
      { l with
        angle := match p.angle with
          | .num q => mathMax (.fin 0) (mathMin (.fin MathPI) q)
          | _ => l.angle } := by
  unfold setAngle; cases p.angle <;> rfl

theorem setPenumbra_eq (p : Props) (l : Light) :
    setPenumbra p l =
      { l with
        penumbra := match p.penumbra with
          | .num q => mathMax (.fin 0) (mathMin (.fin 1) q)
          | _ => l.penumbra } := by
  unfold setPenumbra; cases p.penumbra <;> rfl

theorem setColor_eq (p : Props) (l : Light) :
    setColor p l =
      { l with
        color := match p.color with
          | some c => if truthyStr (some c) then c else l.color
          | none => l.color } := by
  unfold setColor
  cases p.color with
  | none => rfl
  | some c => by_cases h : truthyStr (some c) = true <;> simp [h]

theorem setSoftFalloff_eq (p : Props) (l : Light) :
    setSoftFalloff p l =
      { l with
        softFalloff := match p.softFalloff with | .bool b => b | _ => l.softFalloff } := by
  unfold setSoftFalloff; cases p.softFalloff <;> rfl

theorem setShadow_eq (p : Props) (l : Light) :
    setShadow p l =
      { l with shadow := match p.shadow with | .bool b => b | _ => l.shadow } := by
  unfold setShadow; cases p.shadow <;> rfl

theorem setShadowBias_eq (p : Props) (l : Light) :
    setShadowBias p l =
      { l with shadowBias := match p.shadowBias with | .num b => b | _ => l.shadowBias } := by
  unfold setShadowBias; cases p.shadowBias <;> rfl

theorem setShadowRadius_eq (p : Props) (l : Light) :
    setShadowRadius p l =
      { l with
        shadowRadius := match p.shadowRadius with | .num b => b | _ => l.shadowRadius } := by
  unfold setShadowRadius; cases p.shadowRadius <;> rfl

theorem setRayVisibility_eq (p : Props) (l : Light) :
    setRayVisibility p l =
      { l with
        rayVisibility := match p.rayVisibility with
          | some rv => RayVisibility.spread defaultRayVisibility rv
          | none => l.rayVisibility } := by
  unfold setRayVisibility; cases p.rayVisibility <;> rfl

theorem setShape_eq (p : Props) (l n : Light) :
    setShape p l n =
      { n with
        shape := if (truthyStr p.shape && l.type == "area") = true then p.shape
          else n.shape } := by
  unfold setShape
  by_cases h : (truthyStr p.shape && l.type == "area") = true <;> simp [h]

/-- The record that `updateLightProperties` builds for the light whose id
matches, field by field. -/
theorem applyProperties_eq (p : Props) (l : Light) :
    applyProperties p l =
      { id := l.id
        name := p.name.getD l.name
        type := l.type
        position := l.position
        rotation := l.rotation
        scale := l.scale
        power := match p.power with | .num q => mathMax (.fin 0) q | _ => l.power
        color := match p.color with
          | some c => if truthyStr (some c) then c else l.color
          | none => l.color
        radius := match p.radius with | .num q => mathMax (.fin (1 / 10)) q | _ => l.radius
        softFalloff := match p.softFalloff with | .bool b => b | _ => l.softFalloff
        shadow := match p.shadow with | .bool b => b | _ => l.shadow
        shadowBias := match p.shadowBias with | .num b => b | _ => l.shadowBias
        shadowRadius := match p.shadowRadius with | .num b => b | _ => l.shadowRadius
        angle := match p.angle with
          | .num q => mathMax (.fin 0) (mathMin (.fin MathPI) q)
          | _ => l.angle
        penumbra := match p.penumbra with
          | .num q => mathMax (.fin 0) (mathMin (.fin 1) q)
          | _ => l.penumbra
        rayVisibility := match p.rayVisibility with
          | some rv => RayVisibility.spread defaultRayVisibility rv
          | none => l.rayVisibility
        shape := if (truthyStr p.shape && l.type == "area") = true then p.shape
          else l.shape } := by
  simp only [applyProperties, setName_eq, setPower_eq, setRadius_eq, setAngle_eq, setPenumbra_eq,
    setColor_eq, setSoftFalloff_eq, setShadow_eq, setShadowBias_eq, setShadowRadius_eq,
    setRayVisibility_eq, setShape_eq]

theorem findIndex_eq_none_iff (p : Light → Bool) (xs : List Light) :
    findIndex p xs = none ↔ ∀ x ∈ xs, p x = false := by
  induction xs with
  | nil => simp [findIndex]
  | cons y ys ih =>
    unfold findIndex
    by_cases hy : p y = true
    · simp [hy]
    · simp [hy, ih]

theorem map_if_id_ne {f : Light → Light} (id : String) (xs : List Light)
    (h : id ∉ ids xs) :
    (xs.map fun light => if light.id ≠ id then light else f light) = xs := by
  induction xs with
  | nil => rfl
  | cons y ys ih =>
    simp only [ids, List.map_cons, List.mem_cons, not_or] at h
    have hy : y.id ≠ id := fun e => h.1 e.symm
    simp only [List.map_cons, hy, ne_eq, not_false_eq_true, if_true]
    rw [ih (by simpa [ids] using h.2)]

/-! ## C11: adding a light -/

/-- Claim C11.  For every state, generated id and type, `addLight` yields the
old collection with exactly one record `N` appended at the end.  `N` has the
generated id, the given type, an empty name, position `[0, 5, 0]`, rotation
`[0, 0, 0]`, scale `[1, 1, 1]`, power 1000, colour `#ffffff`, radius 5,
`softFalloff` and `shadow` true, `shadowBias` -0.001, `shadowRadius` 1, angle
`Math.PI / 3`, penumbra 0.5, all four ray-visibility keys true, and shape
`rectangle` when the type is `area` and `undefined` otherwise; the selection
is the id of `N`. -/
theorem addLight_appends_default (s : State) (newId type : String) :
    ∃ N, (addLight newId type s).lights = s.lights ++ [N] ∧
      (addLight newId type s).selectedLight = some N.id ∧
      N.id = newId ∧ N.type = type ∧ N.name = "" ∧
      N.position = [.fin 0, .fin 5, .fin 0] ∧ N.rotation = [.fin 0, .fin 0, .fin 0] ∧
      N.scale = [.fin 1, .fin 1, .fin 1] ∧ N.power = .fin 1000 ∧ N.color = "#ffffff" ∧
      N.radius = .fin 5 ∧ N.softFalloff = true ∧ N.shadow = true ∧
      N.shadowBias = .fin (-(1 / 1000)) ∧ N.shadowRadius = .fin 1 ∧
      N.angle = .fin (MathPI / 3) ∧ N.penumbra = .fin (1 / 2) ∧
      N.rayVisibility = ⟨some true, some true, some true, some true⟩ ∧
      N.shape = (if type = "area" then some "rectangle" else none) := by
  refine ⟨createDefaultLight newId type, rfl, rfl, rfl, rfl, rfl, rfl, rfl, rfl, rfl, rfl, rfl,
    rfl, rfl, ?_, rfl, ?_, rfl, rfl, rfl⟩
  · simp only [createDefaultLight]
    congr 1
    norm_num
  · simp [createDefaultLight, jsDiv]

/-! ## C12: the collection after a removal -/

/-- Claim C12.  For every state and every id, the collection after
`removeLight` is the old collection filtered to the records whose id differs
from the given one: a subsequence of the old collection, in the original
order, with exactly those records; no record with that id remains, and the
collection is unchanged when no record has that id. -/
theorem removeLight_lights (s : State) (id : String) :
    (removeLight id s).lights = s.lights.filter (fun l => decide (l.id ≠ id)) ∧
    (removeLight id s).lights.Sublist s.lights ∧
    (∀ l, l ∈ (removeLight id s).lights ↔ l ∈ s.lights ∧ l.id ≠ id) ∧
    id ∉ ids (removeLight id s).lights ∧
    (id ∉ ids s.lights → (removeLight id s).lights = s.lights) := by
  have hfilter : (removeLight id s).lights = s.lights.filter (fun l => decide (l.id ≠ id)) := by
    simp only [removeLight]
    apply List.filter_congr
    intro x _
    by_cases h : x.id = id <;> simp [h]
  refine ⟨hfilter, ?_, ?_, ?_, ?_⟩
  · rw [hfilter]; exact List.filter_sublist _
  · intro l
    rw [hfilter]
    simp [List.mem_filter]
  · rw [hfilter]
    simp [ids, List.mem_filter]
  · intro h
    rw [hfilter, List.filter_eq_self]
    intro a ha
    have : a.id ≠ id := by
      intro e
      apply h
      simp only [ids, List.mem_map]
      exact ⟨a, ha, e⟩
    simpa using this

/-- Witness for C12: removing the id `b` from a collection that holds only
the record `a`. -/
theorem removeLight_lights_witness :
    "b" ∉ ids (addLight "a" "point" State.initial).lights ∧
    (removeLight "b" (addLight "a" "point" State.initial)).lights
      = (addLight "a" "point" State.initial).lights :=
  ⟨by decide,
    (removeLight_lights (addLight "a" "point" State.initial) "b").2.2.2.2 (by decide)⟩

/-! ## C13: the selection after a removal -/

/-- Claim C13.  For every state and every id, after `removeLight` the
selection is none if the selection before the call was that id, and is
otherwise exactly the selection before the call; in particular it is
unchanged when the id is neither selected nor present. -/
theorem removeLight_selection (s : State) (id : String) :
    (s.selectedLight = some id → (removeLight id s).selectedLight = none) ∧
    (s.selectedLight ≠ some id → (removeLight id s).selectedLight = s.selectedLight) ∧
    (s.selectedLight ≠ some id → id ∉ ids s.lights → removeLight id s = s) := by
  refine ⟨?_, ?_, ?_⟩
  · intro h; simp [removeLight, h]
  · intro h; simp [removeLight, h]
  · intro h hid
    have hl : (s.lights.filter fun light => light.id != id) = s.lights := by
      rw [List.filter_eq_self]
      intro a ha
      have : a.id ≠ id := by
        intro e
        apply hid
        simp only [ids, List.mem_map]
        exact ⟨a, ha, e⟩
      simpa using this
    simp [removeLight, h, hl]

/-- Witness for C13: removing the selected record `a`. -/
theorem removeLight_selection_witness :
    (addLight "a" "point" State.initial).selectedLight = some "a" ∧
    (removeLight "a" (addLight "a" "point" State.initial)).selectedLight = none :=
  ⟨rfl, (removeLight_selection (addLight "a" "point" State.initial) "a").1 rfl⟩

/-! ## C14: selection toggle -/

/-- Claim C14.  For every state and every id, `selectLight(id)` sets the
selection to none if `id` is the current selection and to `id` otherwise, and
leaves the collection unchanged; `selectLight(null)` always results in no
selection. -/
theorem selectLight_toggle (s : State) (id : Option String) :
    (selectLight id s).selectedLight = (if s.selectedLight = id then none else id) ∧
    (selectLight id s).lights = s.lights ∧
    (selectLight none s).selectedLight = none := by
  refine ⟨rfl, rfl, ?_⟩
  simp [selectLight]

/-! ## C15: power and radius floors -/

/-- Claim C15.  For a light present in the collection (at index `i`, with the
id of the call) and every finite number `q`: an update whose `power` is `q`
stores the power `max(0, q)`, and an update whose `radius` is `q` stores the
radius `max(0.1, q)`. -/
theorem updateLightProperties_power_radius (s : State) (id : String) (p : Props)
    (i : Nat) (l : Light) (hl : s.lights[i]? = some l) (hid : l.id = id) :
    ∃ r, (updateLightProperties id p s).lights[i]? = some r ∧
      (∀ q : ℚ, p.power = .num (.fin q) → r.power = .fin (max 0 q)) ∧
      (∀ q : ℚ, p.radius = .num (.fin q) → r.radius = .fin (max (1 / 10) q)) := by
  refine ⟨applyProperties p l, ?_, ?_, ?_⟩
  · simp [updateLightProperties_getElem, hl, hid]
  · intro q hq
    rw [applyProperties_eq]
    simp [hq, mathMax]
  · intro q hq
    rw [applyProperties_eq]
    simp [hq, mathMax]

/-- Witness for C15: `updateLightProperties(id, {power: -50})` on a light just
added stores the power 0. -/
theorem updateLightProperties_power_radius_witness :
    ((addLight "a" "point" State.initial).lights[0]? = some (createDefaultLight "a" "point") ∧
      (createDefaultLight "a" "point").id = "a") ∧
    ∃ r, (updateLightProperties "a" { Props.empty with power := .num (.fin (-50)) }
        (addLight "a" "point" State.initial)).lights[0]? = some r ∧
      r.power = .fin 0 := by
  refine ⟨⟨rfl, rfl⟩, ?_⟩
  obtain ⟨r, hr, hpower, -⟩ :=
    updateLightProperties_power_radius (addLight "a" "point" State.initial) "a"
      { Props.empty with power := .num (.fin (-50)) } 0 (createDefaultLight "a" "point") rfl rfl
  refine ⟨r, hr, ?_⟩
  rw [hpower (-50) rfl]
  norm_num

/-! ## C16: angle and penumbra clamps -/

/-- Claim C16.  For a light present in the collection (at index `i`, with the
id of the call) and every finite number `q`: an update whose `angle` is `q`
stores the angle `min(pi, max(0, q))`, and an update whose `penumbra` is `q`
stores the penumbra `min(1, max(0, q))`. -/
theorem updateLightProperties_angle_penumbra (s : State) (id : String) (p : Props)
    (i : Nat) (l : Light) (hl : s.lights[i]? = some l) (hid : l.id = id) :
    ∃ r, (updateLightProperties id p s).lights[i]? = some r ∧
      (∀ q : ℚ, p.angle = .num (.fin q) → r.angle = .fin (min MathPI (max 0 q))) ∧
      (∀ q : ℚ, p.penumbra = .num (.fin q) → r.penumbra = .fin (min 1 (max 0 q))) := by
  refine ⟨applyProperties p l, ?_, ?_, ?_⟩
  · simp [updateLightProperties_getElem, hl, hid]
  · intro q hq
    rw [applyProperties_eq]
    simp only [hq, mathMax, mathMin]
    congr 1
    exact (max_min_distrib_left 0 MathPI q).trans (by rw [max_eq_right MathPI_pos.le])
  · intro q hq
    rw [applyProperties_eq]
    simp only [hq, mathMax, mathMin]
    congr 1
    exact (max_min_distrib_left 0 1 q).trans (by rw [max_eq_right zero_le_one])

/-- Witness for C16: `updateLightProperties(id, {angle: 10})` on a light just
added stores the angle `Math.PI`. -/
theorem updateLightProperties_angle_penumbra_witness :
    ((addLight "a" "spot" State.initial).lights[0]? = some (createDefaultLight "a" "spot") ∧
      (createDefaultLight "a" "spot").id = "a") ∧
    ∃ r, (updateLightProperties "a" { Props.empty with angle := .num (.fin 10) }
        (addLight "a" "spot" State.initial)).lights[0]? = some r ∧
      r.angle = .fin MathPI := by
  refine ⟨⟨rfl, rfl⟩, ?_⟩
  obtain ⟨r, hr, hangle, -⟩ :=
    updateLightProperties_angle_penumbra (addLight "a" "spot" State.initial) "a"
      { Props.empty with angle := .num (.fin 10) } 0 (createDefaultLight "a" "spot") rfl rfl
  refine ⟨r, hr, ?_⟩
  rw [hangle 10 rfl]
  congr 1
  rw [max_eq_right (by norm_num : (0 : ℚ) ≤ 10)]
  exact min_eq_left (by linarith [MathPI_lt_four])

/-! ## C17: shape changes -/

/-- Claim C17.  For a light present in the collection (at index `i`, with the
id of the call) and every shape among `rectangle`, `circle`, `ellipse`: an
update with that shape sets the shape of a record of type `area`, and leaves
the shape of a record of any other type as it was; a record of another type
created by `addLight` has the shape `undefined`. -/
theorem updateLightProperties_shape (s : State) (id : String) (p : Props) (sh : String)
    (i : Nat) (l : Light) (hl : s.lights[i]? = some l) (hid : l.id = id)
    (hsh : sh ∈ ["rectangle", "circle", "ellipse"]) (hp : p.shape = some sh) :
    ∃ r, (updateLightProperties id p s).lights[i]? = some r ∧
      (l.type = "area" → r.shape = some sh) ∧
      (l.type ≠ "area" → r.shape = l.shape) ∧
      (∀ newId type, type ≠ "area" → (createDefaultLight newId type).shape = none) := by
  refine ⟨applyProperties p l, ?_, ?_, ?_, ?_⟩
  · simp [updateLightProperties_getElem, hl, hid]
  · intro ht
    have htruthy : truthyStr (some sh) = true := by
      simp only [List.mem_cons, List.mem_singleton, List.not_mem_nil, or_false] at hsh
      rcases hsh with rfl | rfl | rfl <;> decide
    rw [applyProperties_eq]
    simp [hp, ht, htruthy]
  · intro ht
    rw [applyProperties_eq]
    simp [ht]
  · intro newId type ht
    simp [createDefaultLight, ht]

/-- Witness for C17: the shape `circle` on an area light just added. -/
theorem updateLightProperties_shape_witness :
    ((addLight "a" "area" State.initial).lights[0]? = some (createDefaultLight "a" "area") ∧
      (createDefaultLight "a" "area").id = "a" ∧
      "circle" ∈ ["rectangle", "circle", "ellipse"]) ∧
    (createDefaultLight "a" "area").shape = some "rectangle" ∧
    ∃ r, (updateLightProperties "a" { Props.empty with shape := some "circle" }
        (addLight "a" "area" State.initial)).lights[0]? = some r ∧
      r.shape = some "circle" := by
  refine ⟨⟨rfl, rfl, by decide⟩, by decide, ?_⟩
  obtain ⟨r, hr, harea, -⟩ :=
    updateLightProperties_shape (addLight "a" "area" State.initial) "a"
      { Props.empty with shape := some "circle" } "circle" 0 (createDefaultLight "a" "area")
      rfl rfl (by decide) rfl
  exact ⟨r, hr, harea rfl⟩

/-! ## C18: fields that a property update leaves alone -/

/-- Claim C18.  For a light present in the collection (at index `i`, with the
id of the call) and every property update: the id, the type, the position,
the rotation and the scale of the record are never changed; every property
whose key is absent from the update (reads as `undefined`) keeps its previous
value; and the update without any key leaves the record equal to what it
was. -/
theorem updateLightProperties_frame (s : State) (id : String) (p : Props)
    (i : Nat) (l : Light) (hl : s.lights[i]? = some l) (hid : l.id = id) :
    ∃ r, (updateLightProperties id p s).lights[i]? = some r ∧
      r.id = l.id ∧ r.type = l.type ∧
      r.position = l.position ∧ r.rotation = l.rotation ∧ r.scale = l.scale ∧
      (p.name = none → r.name = l.name) ∧
      (p.power = .undefined → r.power = l.power) ∧
      (p.radius = .undefined → r.radius = l.radius) ∧
      (p.angle = .undefined → r.angle = l.angle) ∧
      (p.penumbra = .undefined → r.penumbra = l.penumbra) ∧
      (p.color = none → r.color = l.color) ∧
      (p.softFalloff = .undefined → r.softFalloff = l.softFalloff) ∧
      (p.shadow = .undefined → r.shadow = l.shadow) ∧
      (p.shadowBias = .undefined → r.shadowBias = l.shadowBias) ∧
      (p.shadowRadius = .undefined → r.shadowRadius = l.shadowRadius) ∧
      (p.rayVisibility = none → r.rayVisibility = l.rayVisibility) ∧
      (p.shape = none → r.shape = l.shape) ∧
      (p = Props.empty → r = l) := by
  refine ⟨applyProperties p l, ?_, ?_⟩
  · simp [updateLightProperties_getElem, hl, hid]
  · rw [applyProperties_eq]
    refine ⟨rfl, rfl, rfl, rfl, rfl, ?_, ?_, ?_, ?_, ?_, ?_, ?_, ?_, ?_, ?_, ?_, ?_, ?_⟩
    · intro h; simp [h]
    · intro h; simp [h]
    · intro h; simp [h]
    · intro h; simp [h]
    · intro h; simp [h]
    · intro h; simp [h]
    · intro h; simp [h]
    · intro h; simp [h]
    · intro h; simp [h]
    · intro h; simp [h]
    · intro h; simp [h]
    · intro h; simp [h, truthyStr]
    · intro h
      subst h
      simp [Props.empty, truthyStr]

/-- Witness for C18: the update without any key on a light just added. -/
theorem updateLightProperties_frame_witness :
    ((addLight "a" "point" State.initial).lights[0]? = some (createDefaultLight "a" "point") ∧
      (createDefaultLight "a" "point").id = "a") ∧
    ∃ r, (updateLightProperties "a" Props.empty
        (addLight "a" "point" State.initial)).lights[0]? = some r ∧
      r = createDefaultLight "a" "point" := by
  refine ⟨⟨rfl, rfl⟩, ?_⟩
  obtain ⟨r, hr, -, -, -, -, -, -, -, -, -, -, -, -, -, -, -, -, -, hempty⟩ :=
    updateLightProperties_frame (addLight "a" "point" State.initial) "a" Props.empty 0
      (createDefaultLight "a" "point") rfl rfl
  exact ⟨r, hr, hempty rfl⟩

/-! ## C19: unknown ids -/

/-- Claim C19.  For every state and every id that no record of the collection
has, `duplicateLight`, `updateLightTransform` and `updateLightProperties`
each return the state unchanged (collection and selection), for every
transform and every property update. -/
theorem unknown_id_is_noop (s : State) (id newId : String) (t : Transform) (p : Props)
    (h : id ∉ ids s.lights) :
    duplicateLight newId id s = s ∧ updateLightTransform id t s = s ∧
      updateLightProperties id p s = s := by
  refine ⟨?_, ?_, ?_⟩
  · have hfind : s.lights.find? (fun light => light.id == id) = none := by
      rw [List.find?_eq_none]
      intro x hx hxe
      apply h
      simp only [ids, List.mem_map]
      exact ⟨x, hx, by simpa using hxe⟩
    simp only [duplicateLight, hfind]
  · simp only [updateLightTransform, map_if_id_ne id s.lights h]
  · simp only [updateLightProperties, map_if_id_ne id s.lights h]

/-- Witness for C19: the id `b` in a collection that holds only the record
`a`. -/
theorem unknown_id_is_noop_witness :
    "b" ∉ ids (addLight "a" "point" State.initial).lights ∧
    duplicateLight "c" "b" (addLight "a" "point" State.initial)
      = addLight "a" "point" State.initial ∧
    updateLightTransform "b"
        ⟨.array [.num (.fin 1), .num (.fin 2), .num (.fin 3)], .notArray .undefined,
          .notArray .undefined⟩ (addLight "a" "point" State.initial)
      = addLight "a" "point" State.initial ∧
    updateLightProperties "b" { Props.empty with power := .num (.fin 5) }
        (addLight "a" "point" State.initial)
      = addLight "a" "point" State.initial :=
  ⟨by decide,
    unknown_id_is_noop (addLight "a" "point" State.initial) "b" "c"
      ⟨.array [.num (.fin 1), .num (.fin 2), .num (.fin 3)], .notArray .undefined,
        .notArray .undefined⟩
      { Props.empty with power := .num (.fin 5) } (by decide)⟩

/-! ## C20: drops that change nothing -/

/-- Claim C20.  For every collection and every `sourceId` and `targetId`,
`handleDrop` returns the state unchanged whenever `sourceId` equals
`targetId`, or no record has `sourceId`, or no record has `targetId`. -/
theorem handleDrop_noop (s : State) (sourceId targetId : String)
    (h : sourceId = targetId ∨ sourceId ∉ ids s.lights ∨ targetId ∉ ids s.lights) :
    handleDrop sourceId targetId s = s := by
  have hnone : ∀ a : String, a ∉ ids s.lights →
      findIndex (fun l => l.id == a) s.lights = none := by
    intro a ha
    rw [findIndex_eq_none_iff]
    intro x hx
    have : x.id ≠ a := by
      intro e
      apply ha
      simp only [ids, List.mem_map]
      exact ⟨x, hx, e⟩
    simpa using this
  unfold handleDrop
  rcases h with h | h | h
  · simp [h]
  · rw [hnone _ h]
    split_ifs <;> rfl
  · rw [hnone _ h]
    split_ifs
    · rfl
    · cases findIndex (fun l => l.id == sourceId) s.lights <;> rfl

/-- Witness for C20: in the collection `a, b` the record `a` is dropped on a
row whose id `z` is not in the collection. -/
theorem handleDrop_noop_witness :
    ("a" = "z" ∨ "a" ∉ ids [createDefaultLight "a" "point", createDefaultLight "b" "point"] ∨
      "z" ∉ ids [createDefaultLight "a" "point", createDefaultLight "b" "point"]) ∧
    handleDrop "a" "z" ⟨[createDefaultLight "a" "point", createDefaultLight "b" "point"], none⟩
      = ⟨[createDefaultLight "a" "point", createDefaultLight "b" "point"], none⟩ :=
  ⟨Or.inr (Or.inr (by decide)),
    handleDrop_noop ⟨[createDefaultLight "a" "point", createDefaultLight "b" "point"], none⟩
      "a" "z" (Or.inr (Or.inr (by decide)))⟩

/-! # Lemmas on invariants, reordering and the gizmo -/

theorem handleDrop_selectedLight (s : State) (a b : String) :
    (handleDrop a b s).selectedLight = s.selectedLight := by
  unfold handleDrop
  split_ifs
  · rfl
  · split <;> rfl

theorem handleDrop_perm (s : State) (a b : String) :
    (handleDrop a b s).lights.Perm s.lights := by
  by_cases hne : a = b
  · simp [handleDrop, hne]
  · cases hs : findIndex (fun l => l.id == a) s.lights with
    | none => simp [handleDrop, hne, hs]
    | some si =>
      cases ht : findIndex (fun l => l.id == b) s.lights with
      | none => simp [handleDrop, hne, hs, ht]
      | some ti =>
        rw [handleDrop_lights hne hs ht]
        have h1 : ((s.lights.take si ++ s.lights.drop (si + 1)).take ti
              ++ (s.lights.drop si).take 1
              ++ (s.lights.take si ++ s.lights.drop (si + 1)).drop ti).Perm
            ((s.lights.drop si).take 1 ++ (s.lights.take si ++ s.lights.drop (si + 1))) := by
          rw [List.append_assoc]
          refine (List.perm_append_comm_assoc _ _ _).trans ?_
          rw [List.take_append_drop]
        have h2 : ((s.lights.drop si).take 1 ++ (s.lights.take si ++ s.lights.drop (si + 1))).Perm
            (s.lights.take si ++ ((s.lights.drop si).take 1 ++ s.lights.drop (si + 1))) :=
          List.perm_append_comm_assoc _ _ _
        have h3 : (s.lights.drop si).take 1 ++ s.lights.drop (si + 1) = s.lights.drop si := by
          have : s.lights.drop (si + 1) = (s.lights.drop si).drop 1 := by
            rw [List.drop_drop]
          rw [this, List.take_append_drop]
        rw [h3, List.take_append_drop] at h2
        exact h1.trans h2

theorem ids_updateLightTransform (id : String) (t : Transform) (s : State) :
    ids (updateLightTransform id t s).lights = ids s.lights := by
  simp only [ids, updateLightTransform, List.map_map]
  apply List.map_congr_left
  intro l _
  by_cases h : l.id = id <;> simp [h, applyTransform]

theorem ids_updateLightProperties (id : String) (p : Props) (s : State) :
    ids (updateLightProperties id p s).lights = ids s.lights := by
  simp only [ids, updateLightProperties, List.map_map]
  apply List.map_congr_left
  intro l _
  by_cases h : l.id = id
  · simp [h, applyProperties_eq]
  · simp [h]

theorem mem_ids_handleDrop (s : State) (a b x : String) :
    x ∈ ids (handleDrop a b s).lights ↔ x ∈ ids s.lights := by
  unfold ids
  exact ((handleDrop_perm s a b).map _).mem_iff

theorem jsLe_mathMax_left (a : ℚ) (n : JSNum) (h : n ≠ .nan) :
    jsLe (.fin a) (mathMax (.fin a) n) = true := by
  cases n with
  | fin q => simp [mathMax, jsLe]
  | nan => exact absurd rfl h
  | posInf => simp [mathMax, jsLe]
  | negInf => simp [mathMax, jsLe]

theorem mathMin_ne_nan (b : ℚ) (n : JSNum) (h : n ≠ .nan) : mathMin (.fin b) n ≠ .nan := by
  cases n with
  | fin q => simp [mathMin]
  | nan => exact absurd rfl h
  | posInf => simp [mathMin]
  | negInf => simp [mathMin]

theorem jsLe_clamp_right (b : ℚ) (hb : 0 ≤ b) (n : JSNum) (h : n ≠ .nan) :
    jsLe (mathMax (.fin 0) (mathMin (.fin b) n)) (.fin b) = true := by
  cases n with
  | fin q => simp [mathMin, mathMax, jsLe, hb]
  | nan => exact absurd rfl h
  | posInf => simp [mathMin, mathMax, jsLe, hb]
  | negInf => simp [mathMin, mathMax, jsLe, hb]

theorem lightValid_createDefaultLight (newId type : String) :
    LightValid (createDefaultLight newId type) := by
  have h3 : MathPI / 3 ≤ MathPI := by linarith [MathPI_pos]
  have h0 : 0 ≤ MathPI / 3 := by linarith [MathPI_pos]
  simp [LightValid, createDefaultLight, jsDiv, jsLe, RayVisibility.spread, defaultRayVisibility,
    h3, h0]
  norm_num

theorem lightValid_applyTransform (t : Transform) (l : Light) (h : LightValid l) :
    LightValid (applyTransform t l) := h

theorem lightValid_applyProperties (p : Props) (l : Light) (hp : ClampedKeysNotNaN p)
    (h : LightValid l) : LightValid (applyProperties p l) := by
  obtain ⟨ha0, ha1, hq0, hq1, hpow, hrad, hd, hg, ht, hv⟩ := h
  obtain ⟨hp1, hp2, hp3, hp4⟩ := hp
  rw [applyProperties_eq]
  refine ⟨?_, ?_, ?_, ?_, ?_, ?_, ?_, ?_, ?_, ?_⟩
  · show jsLe (.fin 0) (match p.angle with | .num q => _ | _ => l.angle) = true
    split
    · rename_i q hq
      exact jsLe_mathMax_left 0 _ (mathMin_ne_nan _ _ (fun e => hp3 (by rw [hq, e])))
    · exact ha0
  · show jsLe (match p.angle with | .num q => _ | _ => l.angle) _ = true
    split
    · rename_i q hq
      exact jsLe_clamp_right MathPI MathPI_pos.le q (fun e => hp3 (by rw [hq, e]))
    · exact ha1
  · show jsLe (.fin 0) (match p.penumbra with | .num q => _ | _ => l.penumbra) = true
    split
    · rename_i q hq
      exact jsLe_mathMax_left 0 _ (mathMin_ne_nan _ _ (fun e => hp4 (by rw [hq, e])))
    · exact hq0
  · show jsLe (match p.penumbra with | .num q => _ | _ => l.penumbra) _ = true
    split
    · rename_i q hq
      exact jsLe_clamp_right 1 zero_le_one q (fun e => hp4 (by rw [hq, e]))
    · exact hq1
  · show jsLe (.fin 0) (match p.power with | .num q => _ | _ => l.power) = true
    split
    · rename_i q hq
      exact jsLe_mathMax_left 0 q (fun e => hp1 (by rw [hq, e]))
    · exact hpow
  · show jsLe (.fin (1 / 10)) (match p.radius with | .num q => _ | _ => l.radius) = true
    split
    · rename_i q hq
      exact jsLe_mathMax_left (1 / 10) q (fun e => hp2 (by rw [hq, e]))
    · exact hrad
  · show (match p.rayVisibility with | some rv => _ | none => l.rayVisibility).diffuse.isSome = true
    split
    · rename_i rv _
      cases h : rv.diffuse <;> simp [RayVisibility.spread, defaultRayVisibility, h]
    · exact hd
  · show (match p.rayVisibility with | some rv => _ | none => l.rayVisibility).glossy.isSome = true
    split
    · rename_i rv _
      cases h : rv.glossy <;> simp [RayVisibility.spread, defaultRayVisibility, h]
    · exact hg
  · show (match p.rayVisibility with
      | some rv => _ | none => l.rayVisibility).transmission.isSome = true
    split
    · rename_i rv _
      cases h : rv.transmission <;> simp [RayVisibility.spread, defaultRayVisibility, h]
    · exact ht
  · show (match p.rayVisibility with
      | some rv => _ | none => l.rayVisibility).volumeScatter.isSome = true
    split
    · rename_i rv _
      cases h : rv.volumeScatter <;> simp [RayVisibility.spread, defaultRayVisibility, h]
    · exact hv

theorem forall_mem_map_update {P : Light → Prop} {f : Light → Light} (id : String)
    (xs : List Light) (hxs : ∀ l ∈ xs, P l) (hf : ∀ l, P l → P (f l)) :
    ∀ l ∈ xs.map (fun light => if light.id ≠ id then light else f light), P l := by
  intro l hl
  rw [List.mem_map] at hl
  obtain ⟨x, hx, rfl⟩ := hl
  split_ifs
  · exact hxs x hx
  · exact hf x (hxs x hx)

theorem forall_mem_duplicateLight {P : Light → Prop} (newId id : String) (s : State)
    (hs : ∀ l ∈ s.lights, P l)
    (hcopy : ∀ l, P l → P { l with
      id := newId
      name := (if l.name != "" then l.name else l.type) ++ " Copy"
      position := [jsAdd (index l.position 0) (.fin 1), index l.position 1,
        index l.position 2] }) :
    ∀ l ∈ (duplicateLight newId id s).lights, P l := by
  unfold duplicateLight
  split
  · exact hs
  · rename_i L hfind
    intro l hl
    simp only [List.mem_append, List.mem_singleton] at hl
    rcases hl with hl | rfl
    · exact hs l hl
    · exact hcopy L (hs L (List.mem_of_find?_eq_some hfind))

theorem forall_mem_handleDrop {P : Light → Prop} (a b : String) (s : State)
    (hs : ∀ l ∈ s.lights, P l) : ∀ l ∈ (handleDrop a b s).lights, P l := by
  intro l hl
  exact hs l ((handleDrop_perm s a b).mem_iff.mp hl)

theorem forall_mem_removeLight {P : Light → Prop} (id : String) (s : State)
    (hs : ∀ l ∈ s.lights, P l) : ∀ l ∈ (removeLight id s).lights, P l := by
  intro l hl
  exact hs l (List.mem_of_mem_filter hl)

theorem forall_mem_addLight {P : Light → Prop} (newId type : String) (s : State)
    (hs : ∀ l ∈ s.lights, P l) (hnew : P (createDefaultLight newId type)) :
    ∀ l ∈ (addLight newId type s).lights, P l := by
  intro l hl
  simp only [addLight, List.mem_append, List.mem_singleton] at hl
  rcases hl with hl | rfl
  · exact hs l hl
  · exact hnew

theorem shapeConsistent_createDefaultLight (newId type : String) :
    ShapeConsistent (createDefaultLight newId type) := by
  constructor
  · intro h
    exact ⟨"rectangle", by simp [createDefaultLight] at h ⊢; exact h, by decide⟩
  · intro h
    simp [createDefaultLight] at h ⊢
    exact h

theorem shapeConsistent_applyProperties (p : Props) (l : Light) (h : ShapeConsistent l) :
    ShapeConsistent (applyProperties p l) := by
  rw [applyProperties_eq]
  constructor
  · intro ht
    have ht2 : l.type = "area" := ht
    show ∃ sh, (if (truthyStr p.shape && l.type == "area") = true then p.shape else l.shape)
      = some sh ∧ sh ≠ ""
    by_cases hc : (truthyStr p.shape && l.type == "area") = true
    · rw [if_pos hc]
      cases hsh : p.shape with
      | none => simp [hsh, truthyStr] at hc
      | some sh =>
        refine ⟨sh, rfl, ?_⟩
        simp [hsh, truthyStr] at hc
        exact hc.1
    · rw [if_neg hc]
      exact h.1 ht2
  · intro ht
    have ht2 : l.type ≠ "area" := ht
    show (if (truthyStr p.shape && l.type == "area") = true then p.shape else l.shape) = none
    have hc : ¬ (truthyStr p.shape && l.type == "area") = true := by simp [ht2]
    rw [if_neg hc]
    exact h.2 ht2

theorem reachable_shapeConsistent (s : State) (h : Reachable s) :
    ∀ l ∈ s.lights, ShapeConsistent l := by
  induction h with
  | initial => simp [State.initial]
  | addLight newId type _ ih =>
    exact forall_mem_addLight newId type _ ih (shapeConsistent_createDefaultLight newId type)
  | removeLight id _ ih => exact forall_mem_removeLight id _ ih
  | selectLight id _ ih => exact ih
  | duplicateLight newId id _ ih =>
    exact forall_mem_duplicateLight newId id _ ih (fun l hl => hl)
  | updateLightTransform id t _ ih =>
    exact forall_mem_map_update id _ ih (fun l hl => hl)
  | updateLightProperties id p _ ih =>
    exact forall_mem_map_update id _ ih (fun l hl => shapeConsistent_applyProperties p l hl)
  | handleDrop a b _ ih => exact forall_mem_handleDrop a b _ ih

/-! ## C21: the numeric and ray-visibility invariants -/

/-- Claim C21.  The predicate `StateValid` (every record has angle in
`[0, Math.PI]`, penumbra in `[0, 1]`, power at least 0, radius at least 0.1
and the four ray-visibility keys present) holds in the empty registry and is
preserved by `addLight`, `removeLight`, `selectLight`, `duplicateLight`,
`handleDrop`, `updateLightTransform` with any arguments, and by
`updateLightProperties` for every update object whose power, radius, angle
and penumbra are not `NaN`, in particular for every update object whose
numbers are finite. -/
theorem stateValid_preserved :
    StateValid State.initial ∧
    (∀ s newId type, StateValid s → StateValid (addLight newId type s)) ∧
    (∀ s id, StateValid s → StateValid (removeLight id s)) ∧
    (∀ s id, StateValid s → StateValid (selectLight id s)) ∧
    (∀ s newId id, StateValid s → StateValid (duplicateLight newId id s)) ∧
    (∀ s sourceId targetId, StateValid s → StateValid (handleDrop sourceId targetId s)) ∧
    (∀ s id t, StateValid s → StateValid (updateLightTransform id t s)) ∧
    (∀ s id p, ClampedKeysNotNaN p → StateValid s →
      StateValid (updateLightProperties id p s)) := by
  refine ⟨?_, ?_, ?_, ?_, ?_, ?_, ?_, ?_⟩
  · intro l hl
    simp [State.initial] at hl
  · intro s newId type hs
    exact forall_mem_addLight newId type s hs (lightValid_createDefaultLight newId type)
  · intro s id hs
    exact forall_mem_removeLight id s hs
  · intro s id hs
    exact hs
  · intro s newId id hs
    exact forall_mem_duplicateLight newId id s hs (fun l hl => hl)
  · intro s a b hs
    exact forall_mem_handleDrop a b s hs
  · intro s id t hs
    exact forall_mem_map_update id s.lights hs (fun l hl => lightValid_applyTransform t l hl)
  · intro s id p hp hs
    exact forall_mem_map_update id s.lights hs (fun l hl => lightValid_applyProperties p l hp hl)

/-- Witness for C21: a spot light just added, updated with power -50 and
angle 10. -/
theorem stateValid_preserved_witness :
    ClampedKeysNotNaN { Props.empty with power := .num (.fin (-50)), angle := .num (.fin 10) } ∧
    StateValid (addLight "a" "spot" State.initial) ∧
    StateValid (updateLightProperties "a"
      { Props.empty with power := .num (.fin (-50)), angle := .num (.fin 10) }
      (addLight "a" "spot" State.initial)) :=
  have hp : ClampedKeysNotNaN
      { Props.empty with power := .num (.fin (-50)), angle := .num (.fin 10) } := by
    simp [ClampedKeysNotNaN, Props.empty]
  have hs : StateValid (addLight "a" "spot" State.initial) :=
    stateValid_preserved.2.1 _ "a" "spot" stateValid_preserved.1
  ⟨hp, hs, stateValid_preserved.2.2.2.2.2.2.2 _ "a" _ hp hs⟩

/-! ## C22: `NaN` as a property value -/

/-- Claim C22 (code defect), evaluated on the store.  `typeof NaN` is
`'number'` and `Math.max` and `Math.min` return `NaN` when an argument is
`NaN`, so an update whose power is `NaN`, as the property panel sends for an
emptied input, stores the power `NaN`, for which `power >= 0` is false; the
same happens to radius, angle and penumbra. -/
theorem nan_property_is_stored :
    ((updateLightProperties "a" { Props.empty with power := .num .nan }
        (addLight "a" "point" State.initial)).lights.map fun l => l.power) = [.nan] ∧
    jsLe (.fin 0) .nan = false ∧
    ((updateLightProperties "a"
        { Props.empty with
          radius := .num .nan, angle := .num .nan, penumbra := .num .nan }
        (addLight "a" "point" State.initial)).lights.map
          fun l => (l.radius, l.angle, l.penumbra)) = [(.nan, .nan, .nan)] ∧
    ¬ StateValid (updateLightProperties "a" { Props.empty with power := .num .nan }
        (addLight "a" "point" State.initial)) := by
  have h1 : ((updateLightProperties "a" { Props.empty with power := .num .nan }
      (addLight "a" "point" State.initial)).lights.map fun l => l.power) = [.nan] := by
    simp [updateLightProperties, addLight, State.initial, createDefaultLight,
      applyProperties_eq, Props.empty, mathMax]
  refine ⟨h1, rfl, ?_, ?_⟩
  · simp [updateLightProperties, addLight, State.initial, createDefaultLight,
      applyProperties_eq, Props.empty, mathMax, mathMin]
  · intro hv
    simp only [updateLightProperties, addLight, State.initial, List.nil_append, List.map_cons,
      List.map_nil] at h1 hv
    have := hv _ (List.mem_singleton.mpr rfl)
    simp only [List.cons.injEq, and_true] at h1
    have hpow := this.2.2.2.2.1
    rw [h1] at hpow
    simp [jsLe] at hpow

/-! ## C23: shapes in reachable states -/

/-- Claim C23, counterexample.  An area light is added and then updated with
the shape `hexagon`: the store accepts it, so a reachable state holds a record
of type `area` whose shape is none of `rectangle`, `circle`, `ellipse`. -/
theorem area_shape_hexagon_reachable :
    Reachable (updateLightProperties "a" { Props.empty with shape := some "hexagon" }
      (addLight "a" "area" State.initial)) ∧
    ((updateLightProperties "a" { Props.empty with shape := some "hexagon" }
        (addLight "a" "area" State.initial)).lights.map fun l => (l.type, l.shape))
      = [("area", some "hexagon")] ∧
    "hexagon" ∉ ["rectangle", "circle", "ellipse"] := by
  refine ⟨.updateLightProperties "a" _ (.addLight "a" "area" .initial), ?_, by decide⟩
  simp [updateLightProperties, addLight, State.initial, createDefaultLight,
    applyProperties_eq, Props.empty, truthyStr]

/-- Claim C23 (amended).  In every state reachable from the empty registry by
the registry operations with arbitrary arguments, every record of type `area`
has a shape that is a non-empty string (`rectangle` from `addLight`, or
whatever non-empty string an update passed), and every record of any other
type has the shape `undefined`. -/
theorem reachable_shape (s : State) (h : Reachable s) :
    ∀ l ∈ s.lights,
      (l.type = "area" → ∃ sh, l.shape = some sh ∧ sh ≠ "") ∧
      (l.type ≠ "area" → l.shape = none) :=
  fun l hl => reachable_shapeConsistent s h l hl

/-- Witness for C23 (amended): an area light and a point light are added and
both are updated with the shape `circle`. -/
theorem reachable_shape_witness :
    Reachable (updateLightProperties "b" { Props.empty with shape := some "circle" }
      (updateLightProperties "a" { Props.empty with shape := some "circle" }
        (addLight "b" "point" (addLight "a" "area" State.initial)))) ∧
    ∀ l ∈ (updateLightProperties "b" { Props.empty with shape := some "circle" }
      (updateLightProperties "a" { Props.empty with shape := some "circle" }
        (addLight "b" "point" (addLight "a" "area" State.initial)))).lights,
      (l.type = "area" → ∃ sh, l.shape = some sh ∧ sh ≠ "") ∧
      (l.type ≠ "area" → l.shape = none) :=
  ⟨.updateLightProperties "b" _ (.updateLightProperties "a" _
      (.addLight "b" "point" (.addLight "a" "area" .initial))),
    reachable_shape _ (.updateLightProperties "b" _ (.updateLightProperties "a" _
      (.addLight "b" "point" (.addLight "a" "area" .initial))))⟩

/-! ## C24: what the two update actions never change -/

/-- Claim C24.  For every state, id, transform object and property object
(objects that carry `id` or `type` keys included), `updateLightTransform` and
`updateLightProperties` return a collection of the same length in which the
record at every index has the same id and the same type as before and every
record whose id differs from the argument id is unchanged; the selection is
unchanged. -/
theorem update_actions_frame (s : State) (id : String) (t : WithIdAndType Transform)
    (p : WithIdAndType Props) :
    (updateLightTransform id t.read s).lights.length = s.lights.length ∧
    (updateLightProperties id p.read s).lights.length = s.lights.length ∧
    (∀ (i : Nat) (l : Light), s.lights[i]? = some l →
      ∃ r, (updateLightTransform id t.read s).lights[i]? = some r ∧
        r.id = l.id ∧ r.type = l.type ∧ (l.id ≠ id → r = l)) ∧
    (∀ (i : Nat) (l : Light), s.lights[i]? = some l →
      ∃ r, (updateLightProperties id p.read s).lights[i]? = some r ∧
        r.id = l.id ∧ r.type = l.type ∧ (l.id ≠ id → r = l)) ∧
    (updateLightTransform id t.read s).selectedLight = s.selectedLight ∧
    (updateLightProperties id p.read s).selectedLight = s.selectedLight := by
  refine ⟨by simp [updateLightTransform], by simp [updateLightProperties], ?_, ?_, rfl, rfl⟩
  · intro i l hl
    rw [updateLightTransform_getElem, hl]
    by_cases h : l.id = id
    · exact ⟨applyTransform t.read l, by simp [h], rfl, rfl, fun hne => absurd h hne⟩
    · exact ⟨l, by simp [h], rfl, rfl, fun _ => rfl⟩
  · intro i l hl
    rw [updateLightProperties_getElem, hl]
    by_cases h : l.id = id
    · refine ⟨applyProperties p.read l, by simp [h], ?_, ?_, fun hne => absurd h hne⟩
      · rw [applyProperties_eq]
      · rw [applyProperties_eq]
    · exact ⟨l, by simp [h], rfl, rfl, fun _ => rfl⟩

/-- Witness for C24: two lights `a` and `b`; `a` is updated with objects that
carry the keys `id: "b"` and `type: "area"`; the record `b` at index 1 is
unchanged and the record at index 0 is still `a`, of type `point`. -/
theorem update_actions_frame_witness :
    ((addLight "b" "spot" (addLight "a" "point" State.initial)).lights[1]?
        = some (createDefaultLight "b" "spot") ∧
      (createDefaultLight "b" "spot").id ≠ "a") ∧
    ∃ r, (updateLightProperties "a"
        (WithIdAndType.mk { Props.empty with power := .num (.fin 5) } (.str "b")
          (.str "area")).read
        (addLight "b" "spot" (addLight "a" "point" State.initial))).lights[1]? = some r ∧
      r = createDefaultLight "b" "spot" := by
  have hne : (createDefaultLight "b" "spot").id ≠ "a" := by decide
  refine ⟨⟨rfl, hne⟩, ?_⟩
  obtain ⟨-, -, -, hprops, -, -⟩ :=
    update_actions_frame (addLight "b" "spot" (addLight "a" "point" State.initial)) "a"
      (WithIdAndType.mk ⟨.notArray .undefined, .notArray .undefined, .notArray .undefined⟩
        (.str "b") (.str "area"))
      (WithIdAndType.mk { Props.empty with power := .num (.fin 5) } (.str "b") (.str "area"))
  obtain ⟨r, hr, -, -, hsame⟩ := hprops 1 (createDefaultLight "b" "spot") rfl
  exact ⟨r, hr, hsame hne⟩

/-! ## C25: validity of the selection -/

/-- Claim C25.  If the selection is none or the id of a record of the
collection, it still is after `addLight`, `removeLight`, `duplicateLight`,
`handleDrop`, `updateLightTransform` and `updateLightProperties` with any
arguments.  `selectLight` can break this: for every id that no record has and
that differs from the current selection, the selection after `selectLight` is
that id, which still names no record. -/
theorem selection_valid_preserved :
    (∀ s newId type, SelectionValid s → SelectionValid (addLight newId type s)) ∧
    (∀ s id, SelectionValid s → SelectionValid (removeLight id s)) ∧
    (∀ s newId id, SelectionValid s → SelectionValid (duplicateLight newId id s)) ∧
    (∀ s sourceId targetId, SelectionValid s →
      SelectionValid (handleDrop sourceId targetId s)) ∧
    (∀ s id t, SelectionValid s → SelectionValid (updateLightTransform id t s)) ∧
    (∀ s id p, SelectionValid s → SelectionValid (updateLightProperties id p s)) ∧
    (∀ s a, a ∉ ids s.lights → s.selectedLight ≠ some a →
      (selectLight (some a) s).selectedLight = some a ∧
      a ∉ ids (selectLight (some a) s).lights ∧
      ¬ SelectionValid (selectLight (some a) s)) := by
  refine ⟨?_, ?_, ?_, ?_, ?_, ?_, ?_⟩
  · intro s newId type _ a ha
    simp only [addLight, Option.some.injEq] at ha
    subst ha
    simp [addLight, ids]
  · intro s id hs a ha
    simp only [removeLight] at ha
    split_ifs at ha with hsel
    have hmem := hs a ha
    have hne : a ≠ id := fun e => hsel (by rw [ha, e])
    simp only [ids, List.mem_map] at hmem ⊢
    obtain ⟨l, hl, hla⟩ := hmem
    refine ⟨l, ?_, hla⟩
    simp only [removeLight, List.mem_filter]
    exact ⟨hl, by simpa [hla] using hne⟩
  · intro s newId id hs a ha
    cases hfind : s.lights.find? (fun light => light.id == id) with
    | none =>
      simp only [duplicateLight, hfind] at ha ⊢
      exact hs a ha
    | some L =>
      simp only [duplicateLight, hfind, Option.some.injEq] at ha ⊢
      subst ha
      simp [ids]
  · intro s x y hs a ha
    rw [handleDrop_selectedLight] at ha
    exact (mem_ids_handleDrop s x y a).mpr (hs a ha)
  · intro s id t hs a ha
    rw [ids_updateLightTransform]
    exact hs a ha
  · intro s id p hs a ha
    rw [ids_updateLightProperties]
    exact hs a ha
  · intro s a hmem hsel
    have h1 : (selectLight (some a) s).selectedLight = some a := by
      simp [selectLight, hsel]
    have h2 : a ∉ ids (selectLight (some a) s).lights := hmem
    exact ⟨h1, h2, fun hv => h2 (hv a h1)⟩

/-- Witness for C25: with only the record `a` in the collection,
`selectLight("z")` leaves the selection on an id that names no record. -/
theorem selection_valid_preserved_witness :
    ("z" ∉ ids (addLight "a" "point" State.initial).lights ∧
      (addLight "a" "point" State.initial).selectedLight ≠ some "z") ∧
    (selectLight (some "z") (addLight "a" "point" State.initial)).selectedLight = some "z" ∧
    "z" ∉ ids (selectLight (some "z") (addLight "a" "point" State.initial)).lights ∧
    ¬ SelectionValid (selectLight (some "z") (addLight "a" "point" State.initial)) :=
  ⟨⟨by decide, by decide⟩,
    selection_valid_preserved.2.2.2.2.2.2 (addLight "a" "point" State.initial) "z"
      (by decide) (by decide)⟩

/-! ## C26: the reordered collection -/

/-- Claim C26.  For a collection with pairwise distinct ids and different ids
`sourceId` (record `a` at index `si`) and `targetId` (record `b` at index
`ti`), `handleDrop` returns a permutation of the old collection, of the same
length, in which the source record is at the index `ti` that the target had
before the call, and the other records keep their relative order: without the
source record, the new collection and the old one are the same list. -/
theorem handleDrop_permutation (s : State) (sourceId targetId : String)
    (si ti : Nat) (a b : Light)
    (hnodup : (ids s.lights).Nodup) (hne : sourceId ≠ targetId)
    (hs : s.lights[si]? = some a) (hsid : a.id = sourceId)
    (ht : s.lights[ti]? = some b) (htid : b.id = targetId) :
    (handleDrop sourceId targetId s).lights.Perm s.lights ∧
    (handleDrop sourceId targetId s).lights.length = s.lights.length ∧
    (handleDrop sourceId targetId s).lights[ti]? = some a ∧
    (handleDrop sourceId targetId s).lights.eraseIdx ti = s.lights.eraseIdx si := by
  have hperm := handleDrop_perm s sourceId targetId
  have hfs := findIndex_id_of_getElem hnodup hs
  have hft := findIndex_id_of_getElem hnodup ht
  rw [hsid] at hfs
  rw [htid] at hft
  have hti := lt_length_of_getElem ht
  refine ⟨hperm, hperm.length_eq, ?_, ?_⟩
  · rw [handleDrop_lights hne hfs hft, reorder_getElem _ _ _ _ hs hti]; simp
  · apply List.ext_getElem?
    intro n
    rw [List.getElem?_eraseIdx, List.getElem?_eraseIdx, handleDrop_lights hne hfs hft,
      reorder_getElem _ _ _ _ hs hti, reorder_getElem _ _ _ _ hs hti]
    by_cases h1 : n < ti
    · simp only [h1, if_true]
    · have h2 : ¬ n + 1 < ti := by omega
      have h3 : ¬ n + 1 = ti := by omega
      simp only [h1, h2, h3, if_false, Nat.add_sub_cancel]

/-- Witness for C26: in `a, b, c` the record `a` (index 0) is dragged onto
`c` (index 2); the result is `b, c, a`. -/
theorem handleDrop_permutation_witness :
    ((ids [createDefaultLight "a" "point", createDefaultLight "b" "point",
        createDefaultLight "c" "point"]).Nodup ∧ "a" ≠ "c") ∧
    ((handleDrop "a" "c" ⟨[createDefaultLight "a" "point", createDefaultLight "b" "point",
        createDefaultLight "c" "point"], none⟩).lights.Perm
        [createDefaultLight "a" "point", createDefaultLight "b" "point",
          createDefaultLight "c" "point"] ∧
     (handleDrop "a" "c" ⟨[createDefaultLight "a" "point", createDefaultLight "b" "point",
        createDefaultLight "c" "point"], none⟩).lights.length = 3 ∧
     (handleDrop "a" "c" ⟨[createDefaultLight "a" "point", createDefaultLight "b" "point",
        createDefaultLight "c" "point"], none⟩).lights[2]?
          = some (createDefaultLight "a" "point") ∧
     (handleDrop "a" "c" ⟨[createDefaultLight "a" "point", createDefaultLight "b" "point",
        createDefaultLight "c" "point"], none⟩).lights.eraseIdx 2
          = [createDefaultLight "b" "point", createDefaultLight "c" "point"]) :=
  ⟨⟨by decide, by decide⟩,
    handleDrop_permutation
      ⟨[createDefaultLight "a" "point", createDefaultLight "b" "point",
        createDefaultLight "c" "point"], none⟩ "a" "c" 0 2
      (createDefaultLight "a" "point") (createDefaultLight "c" "point")
      (by decide) (by decide) rfl rfl rfl rfl⟩

/-! # Lemmas on the values the gizmo sends -/

theorem gizmoRotation_eq (r : List EulerEntry) :
    gizmoRotation r
      = r.map fun v => match v with | .angle (.fin q) => .fin (wrap q) | _ => .fin 0 := by
  unfold gizmoRotation
  congr 1
  funext v
  cases v with
  | angle n =>
    cases n <;> simp [jsSub, jsRem, jsAdd, jsMul, jsNeg, wrap, MathPI_pos.ne', sub_eq_add_neg]
  | order o => rfl

/-- Whatever the angles of the object are, the rotation that the gizmo sends
has four entries and the store replaces it by `[0, 0, 0]`. -/
theorem applyTransform_gizmo_rotation (x y z : JSNum) (position scale : JSArr) (l : Light) :
    (gizmoRotation (eulerToArray x y z)).length = 4 ∧
    (applyTransform
        { position := position
          rotation := numArray (gizmoRotation (eulerToArray x y z))
          scale := scale } l).rotation = [.fin 0, .fin 0, .fin 0] := by
  constructor
  · simp [gizmoRotation, eulerToArray]
  · have hlen : ((gizmoRotation (eulerToArray x y z)).map JSVal.num).length ≠ 3 := by
      simp [gizmoRotation, eulerToArray]
    simp only [applyTransform, numArray, validateArray_wrong_length _ _ _ hlen,
      normalizeRotation_eq, List.map_cons, List.map_nil, wrap_zero]

/-! ## C27: the store on what the gizmo sends -/

/-- Claim C27, the code at the failing input.  For a scene object whose Euler
angles are `(1/2, 0, 0)`, `toArray()` gives the four entries
`[1/2, 0, 0, 'XYZ']`, the gizmo computes the normalized rotation
`[1/2, 0, 0, 0]`, of four entries, and sends it; `validateArray` of the store
rejects every array whose length is not 3, so the stored rotation is
`[0, 0, 0]` and not the normalized rotation `[1/2, 0, 0]` of the object. -/
theorem gizmo_rotation_of_four_entries_reset :
    eulerToArray (.fin (1 / 2)) (.fin 0) (.fin 0)
      = [.angle (.fin (1 / 2)), .angle (.fin 0), .angle (.fin 0), .order .XYZ] ∧
    gizmoRotation (eulerToArray (.fin (1 / 2)) (.fin 0) (.fin 0))
      = [.fin (1 / 2), .fin 0, .fin 0, .fin 0] ∧
    ((gizmoUpdateTransform "a" [.fin 0, .fin 5, .fin 0]
        (eulerToArray (.fin (1 / 2)) (.fin 0) (.fin 0))
        [.fin 1, .fin 1, .fin 1] (addLight "a" "point" State.initial)).lights.map
          fun l => l.rotation) = [[.fin 0, .fin 0, .fin 0]] := by
  refine ⟨rfl, ?_, ?_⟩
  · simp only [gizmoRotation_eq, eulerToArray, List.map_cons, List.map_nil, wrap_zero, wrap_half]
  · simp [gizmoUpdateTransform, updateLightTransform, addLight, State.initial,
      createDefaultLight, (applyTransform_gizmo_rotation _ _ _ _ _ _).2]

/-! ## C28: what the wrap does to one component -/

/-- Claim C28, counterexample.  The rotation component `1e16` is stored as
`-784621497923871 / 2^48` (the double `-2.7875355283550753`), because the sum
`1e16 + Math.PI` is rounded to `1e16 + 4`; the stored value does not differ
from `1e16` by an integer multiple of `2 * Math.PI`. -/
theorem rotation_ten_pow_sixteen_stored :
    (updateLightTransform "a"
        ⟨.notArray .undefined,
          .array [.num (.fin 10000000000000000), .num (.fin 0), .num (.fin 0)],
          .notArray .undefined⟩
        (addLight "a" "point" State.initial)).lights.map (fun l => l.rotation)
      = [[.fin (-784621497923871 / 2 ^ 48), .fin 0, .fin 0]]
    ∧ ¬ ∃ k : ℤ, (-784621497923871 / 2 ^ 48 : ℚ) - 10000000000000000 = (k : ℚ) * (2 * MathPI) := by
  constructor
  · simp [updateLightTransform, applyTransform, addLight, State.initial, createDefaultLight,
      validateArray, normalizeRotation_eq, wrap_zero]
    exact wrap_ten_pow_sixteen
  · rintro ⟨k, hk⟩
    unfold MathPI at hk
    have h1 : ((-1591549430918954 : ℤ) : ℚ) < (k : ℚ) := by push_cast; linarith
    have h2 : (k : ℚ) < ((-1591549430918953 : ℤ) : ℚ) := by push_cast; linarith
    have h3 : (-1591549430918954 : ℤ) < k := by exact_mod_cast h1
    have h4 : k < (-1591549430918953 : ℤ) := by exact_mod_cast h2
    omega

/-- Claim C28 (amended).  For a light present in the collection (at index
`i`, with the id of the call) and a rotation array of exactly three entries:
a component that is a finite number `q` is stored as a finite number `w`, and
there is an integer `k` such that `w` is within `2^(E-53) + 2^-50` of
`q - k * (2 * Math.PI)` for every `E` with `|q + Math.PI| < 2^(E+1)` (the
rounding of the sum and of the difference), and `w = q - k * (2 * Math.PI)`
when `q` is an integer multiple of `2^-48` with `|q| ≤ 16`; a component that
is not a finite number is stored as 0. -/
theorem updateLightTransform_rotation_component (s : State) (id : String) (t : Transform)
    (i : Nat) (l : Light) (xs : List JSVal)
    (hl : s.lights[i]? = some l) (hid : l.id = id)
    (hr : t.rotation = .array xs) (hlen : xs.length = 3) :
    ∃ r, (updateLightTransform id t s).lights[i]? = some r ∧
      r.rotation.length = 3 ∧
      ∀ (j : Nat) (v : JSVal), xs[j]? = some v →
        ∃ a, r.rotation[j]? = some a ∧
          (∀ q : ℚ, v = .num (.fin q) → ∃ (w : ℚ) (k : ℤ), a = .fin w ∧
            (∀ E : ℤ, |q + MathPI| < (2 : ℚ) ^ (E + 1) →
              |w - (q - (k : ℚ) * (2 * MathPI))| ≤ (2 : ℚ) ^ (E - 53) + 1 / 2 ^ 50) ∧
            ((∃ n : ℤ, q = (n : ℚ) / 2 ^ 48) → |q| ≤ 16 →
              w = q - (k : ℚ) * (2 * MathPI))) ∧
          (numberIsFinite v = false → a = .fin 0) := by
  refine ⟨applyTransform t l, ?_, ?_, ?_⟩
  · simp [updateLightTransform_getElem, hl, hid]
  · simp [applyTransform, normalizeRotation, validateArray_length]
  · intro j v hv
    simp only [applyTransform, hr, validateArray_none_of_length _ _ hlen, normalizeRotation_eq,
      List.getElem?_map, hv, Option.map_some']
    refine ⟨_, rfl, ?_, ?_⟩
    · intro q hq
      subst hq
      exact ⟨wrap q, truncQ (roundDouble (q + MathPI) / (MathPI * 2)), rfl,
        fun E hE => wrap_sub_multiple_near q E hE, fun hm hb => wrap_exact_of_multiple hm hb⟩
    · intro hnf
      cases v with
      | num n =>
        cases n with
        | fin q => simp [numberIsFinite] at hnf
        | nan => simp [wrap_zero]
        | posInf => simp [wrap_zero]
        | negInf => simp [wrap_zero]
      | undefined => simp [wrap_zero]
      | null => simp [wrap_zero]
      | bool b => simp [wrap_zero]
      | str s => simp [wrap_zero]
      | obj => simp [wrap_zero]

/-- Witness for C28 (amended): the rotation `[7, NaN, "x"]` on a light just
added.  The component `7` is stored as `7 - k * (2 * Math.PI)` for an integer
`k`, the component `NaN` as 0. -/
theorem updateLightTransform_rotation_component_witness :
    ((addLight "a" "point" State.initial).lights[0]? = some (createDefaultLight "a" "point") ∧
      (createDefaultLight "a" "point").id = "a" ∧
      ([.num (.fin 7), .num .nan, .str "x"] : List JSVal).length = 3) ∧
    ∃ r, (updateLightTransform "a"
        ⟨.notArray .undefined, .array [.num (.fin 7), .num .nan, .str "x"],
          .notArray .undefined⟩
        (addLight "a" "point" State.initial)).lights[0]? = some r ∧
      r.rotation.length = 3 ∧
      (∃ k : ℤ, r.rotation[0]? = some (.fin (7 - (k : ℚ) * (2 * MathPI)))) ∧
      r.rotation[1]? = some (.fin 0) := by
  refine ⟨⟨rfl, rfl, rfl⟩, ?_⟩
  obtain ⟨r, hr, hlen, hcomp⟩ :=
    updateLightTransform_rotation_component (addLight "a" "point" State.initial) "a"
      ⟨.notArray .undefined, .array [.num (.fin 7), .num .nan, .str "x"],
        .notArray .undefined⟩
      0 (createDefaultLight "a" "point") [.num (.fin 7), .num .nan, .str "x"]
      rfl rfl rfl rfl
  obtain ⟨a0, ha0, hfin, -⟩ := hcomp 0 (.num (.fin 7)) rfl
  obtain ⟨w, k, hw, -, hexact⟩ := hfin 7 rfl
  obtain ⟨a1, ha1, -, hzero⟩ := hcomp 1 (.num .nan) rfl
  refine ⟨r, hr, hlen, ⟨k, ?_⟩, ?_⟩
  · rw [ha0, hw, hexact ⟨7 * 2 ^ 48, by norm_num⟩ (by norm_num [abs_of_pos])]
  · rw [ha1, hzero rfl]

end LightStore
